import Mathlib

/-!
Verification development for the BaseCT dynamic-schema data layer
(`repo.py` catalog/record store and the `app.py` table-view command layer).

The SQLite-backed Python code is shallowly embedded: each repository
operation becomes a pure Lean function over an explicit state, with the
wall-clock (`now_iso()`) passed in as an explicit `now : String` argument
and SQLite REAL values modelled over `Int` (no claim under verification
exercises fractional arithmetic).  Fallible operations return
`Except String` mirroring the `raise`/exception behaviour of the source.
-/

namespace BaseCT

/-! ## String primitives

Python and SQLite string operations are modelled by structural functions
over the character list of a `String`, so that every definition below
evaluates inside the kernel on concrete inputs. -/

/-- ASCII lower-casing of one character (SQLite LIKE case folding). -/
def lowerChar (c : Char) : Char :=
  if 'A' ≤ c ∧ c ≤ 'Z' then Char.ofNat (c.toNat + 32) else c

/-- ASCII upper-casing of one character (Python `str.upper` on the ASCII
range that the sort-direction strings use). -/
def upperChar (c : Char) : Char :=
  if 'a' ≤ c ∧ c ≤ 'z' then Char.ofNat (c.toNat - 32) else c

/-- Whitespace stripping on a character list. -/
def pyStripList (l : List Char) : List Char :=
  ((l.dropWhile Char.isWhitespace).reverse.dropWhile Char.isWhitespace).reverse

/-- Model of Python `str.strip()`. -/
def pyStrip (s : String) : String := ⟨pyStripList s.data⟩

/-- Model of Python `str.upper()` (ASCII). -/
def pyUpper (s : String) : String := ⟨s.data.map upperChar⟩

/-- Model of Python `str.lower()` / SQLite LIKE folding (ASCII). -/
def pyLower (s : String) : String := ⟨s.data.map lowerChar⟩

/-- Split a character list on a separator character. -/
def splitCharList (sep : Char) (l : List Char) : List (List Char) :=
  l.foldr (fun c acc => if c = sep then [] :: acc else (c :: acc.headD []) :: acc.tail)
    [[]]

/-- Model of Python `str.split(sep)` for a one-character separator (also
used for `str.splitlines()`, which coincides with splitting on a newline
for the stripped input it receives). -/
def splitChar (sep : Char) (s : String) : List String :=
  (splitCharList sep s.data).map (fun cs => ⟨cs⟩)

/-- Occurrence of `pat` as a contiguous sublist. -/
def subOccursList : List Char → List Char → Bool
  | pat, [] => pat.isEmpty
  | pat, c :: rest => pat.isPrefixOf (c :: rest) || subOccursList pat rest

/-- Scalar value as stored in an SQLite cell or carried in a Python
variable: NULL/None, INTEGER (also modelling REAL, see module comment),
TEXT, or a Python bool (a bool is an `int` instance in Python). -/
inductive JVal where
  | jNull : JVal
  | jInt  : Int → JVal
  | jStr  : String → JVal
  | jBool : Bool → JVal
deriving DecidableEq, Repr

namespace JVal

/-- Python `str(x)` on the scalar values we model. -/
def pyStr : JVal → String
  | jNull => "None"
  | jInt n => toString n
  | jStr s => s
  | jBool b => if b then "True" else "False"

/-- Python truthiness (`bool(x)`) of a scalar. -/
def truthy : JVal → Bool
  | jNull => false
  | jInt n => n ≠ 0
  | jStr s => s ≠ ""
  | jBool b => b

/-- Parse helper for Python `int("...")`: surrounding whitespace
stripped, then an optional sign followed by at least one digit. -/
def parseIntDigits (s : String) : Option Int :=
  let core := pyStripList s.data
  let (neg, digits) :=
    match core with
    | '-' :: rest => (true, rest)
    | '+' :: rest => (false, rest)
    | l => (false, l)
  if digits ≠ [] ∧ digits.all Char.isDigit then
    let n : Nat := digits.foldl (fun acc c => acc * 10 + (c.toNat - 48)) 0
    some (if neg then -(n : Int) else (n : Int))
  else none

/-- Python `int(x)` on a scalar: ints pass through, bools map to 0/1,
strings are parsed, anything else raises. -/
def pyToInt : JVal → Except String Int
  | jInt n => .ok n
  | jBool b => .ok (if b then 1 else 0)
  | jStr s =>
      match parseIntDigits s with
      | some n => .ok n
      | none => .error "invalid literal for int"
  | jNull => .error "int of None"

/-- Python `float(x)` restricted to the integral values our embedding
carries (REAL is modelled over `Int`). -/
def pyToFloat : JVal → Except String Int
  | jInt n => .ok n
  | jBool b => .ok (if b then 1 else 0)
  | jStr s =>
      match parseIntDigits s with
      | some n => .ok n
      | none => .error "could not convert string to float"
  | jNull => .error "float of None"

end JVal

open JVal

/-- Substring occurrence test used to model SQL `LIKE '%pat%'`
(case-insensitive on ASCII). -/
def sqlLikeContains (hay pat : String) : Bool :=
  subOccursList (pat.data.map lowerChar) (hay.data.map lowerChar)

/-- Lookup in an association list modelling a Python dict
(`d.get(k)`): first binding for the key, if any. -/
def dictGet {α : Type} [DecidableEq α] {β : Type} : List (α × β) → α → Option β
  | [], _ => none
  | kv :: rest, k => if kv.1 = k then some kv.2 else dictGet rest k

instance {ε α : Type} [DecidableEq ε] [DecidableEq α] :
    DecidableEq (Except ε α) := fun x y =>
  match x, y with
  | .ok a, .ok b =>
      if h : a = b then isTrue (by rw [h])
      else isFalse (by intro hc; exact h (Except.ok.inj hc))
  | .error a, .error b =>
      if h : a = b then isTrue (by rw [h])
      else isFalse (by intro hc; exact h (Except.error.inj hc))
  | .ok _, .error _ => isFalse (fun hc => Except.noConfusion hc)
  | .error _, .ok _ => isFalse (fun hc => Except.noConfusion hc)

/-! ## Physical record storage (`data_<table_id>` tables)

One `DataTable` models one SQLite `data_<table_id>` table: the dynamic
columns `f_<field_id>` (each with the DDL default fixed at creation
time), the rows, and the AUTOINCREMENT sequence. -/

/-- Physical row of a data table: `id`, the two audit columns, and one
cell per dynamic column (keyed by field id, in column order). -/
structure DataRow where
  id : Nat
  created_at : String
  updated_at : String
  cells : List (Nat × JVal)
deriving DecidableEq, Repr

/-- Physical data table: dynamic columns with their DDL defaults, rows,
and the AUTOINCREMENT sequence value (largest id ever used). -/
structure DataTable where
  cols : List (Nat × JVal)
  rows : List DataRow
  seq : Nat
deriving DecidableEq, Repr

namespace DataTable

/-- Freshly provisioned data table (`_ensure_data_table` on a missing
table): only the system columns, no rows. -/
def empty : DataTable := ⟨[], [], 0⟩

/-- Well-formedness maintained by the repository: row ids never exceed
the AUTOINCREMENT sequence and are distinct, column names are distinct
(ALTER TABLE refuses duplicates), and each row has exactly the cells of
the column list, in column order. -/
def WF (t : DataTable) : Prop :=
  (∀ r ∈ t.rows, r.id ≤ t.seq) ∧
  (t.rows.map DataRow.id).Nodup ∧
  (t.cols.map Prod.fst).Nodup ∧
  (∀ r ∈ t.rows, r.cells.map Prod.fst = t.cols.map Prod.fst)

instance (t : DataTable) : Decidable t.WF := by
  unfold WF; infer_instance

end DataTable

/-- DDL default value for a field type (`_ddl_for_field`): the five
string-typed kinds default to the empty string, `number`/`bool`/`relation`
to zero; an unknown type raises. -/
def ddlDefaultForField (ftype : String) : Except String JVal :=
  if ftype = "text" then .ok (jStr "")
  else if ftype = "number" then .ok (jInt 0)
  else if ftype = "date" then .ok (jStr "")
  else if ftype = "bool" then .ok (jInt 0)
  else if ftype = "file" then .ok (jStr "")
  else if ftype = "image" then .ok (jStr "")
  else if ftype = "path" then .ok (jStr "")
  else if ftype = "select" then .ok (jStr "")
  else if ftype = "relation" then .ok (jInt 0)
  else .error "Tipo no soportado"

/-- Model of `ALTER TABLE ... ADD COLUMN`: fails if the column already
exists, otherwise appends the column and back-fills every existing row
with the DDL default. -/
def alterAddColumn (t : DataTable) (fid : Nat) (dflt : JVal) :
    Except String DataTable :=
  if (t.cols.map Prod.fst).contains fid then
    .error "duplicate column name"
  else
    .ok { t with
          cols := t.cols ++ [(fid, dflt)],
          rows := t.rows.map (fun r => { r with cells := r.cells ++ [(fid, dflt)] }) }

/-- Model of `MetaRepository._ensure_column`: checks `PRAGMA table_info`
first and only issues the ALTER when the column is absent. -/
def ensureColumn (t : DataTable) (fid : Nat) (dflt : JVal) :
    Except String DataTable :=
  if (t.cols.map Prod.fst).contains fid then .ok t
  else alterAddColumn t fid dflt

/-- Cell list for a freshly inserted row: every dynamic column takes the
supplied value when the INSERT names it, otherwise its DDL default.
An INSERT naming a column the table does not have raises instead (handled
by the callers below). -/
def buildCells (cols : List (Nat × JVal)) (vals : List (Nat × JVal)) :
    List (Nat × JVal) :=
  cols.map (fun cd => (cd.1, (dictGet vals cd.1).getD cd.2))

/-- Check modelling the SQLite error `no such column: f_<fid>` on an
INSERT/UPDATE naming an unknown column. -/
def valsSubsetCols (cols : List (Nat × JVal)) (vals : List (Nat × JVal)) : Bool :=
  vals.all (fun kv => (cols.map Prod.fst).contains kv.1)

/-- Model of `MetaRepository.add_record` on one data table: assigns the
next AUTOINCREMENT id, sets both audit columns to `now`, and stores the
given per-field values (unnamed columns keep their defaults). -/
def addRecord (t : DataTable) (vals : List (Nat × JVal)) (now : String) :
    Except String (DataTable × Nat) :=
  if valsSubsetCols t.cols vals then
    let rid := t.seq + 1
    .ok ({ t with
           rows := t.rows ++ [⟨rid, now, now, buildCells t.cols vals⟩],
           seq := rid }, rid)
  else .error "no such column"

/-- Model of `MetaRepository.add_record_with_id` (`INSERT OR REPLACE`
with an explicit id): replaces any row with that id, uses the supplied
audit timestamps when given and `now` otherwise, and advances the
AUTOINCREMENT sequence when the forced id exceeds it. -/
def addRecordWithId (t : DataTable) (rid : Nat) (vals : List (Nat × JVal))
    (created_at updated_at : Option String) (now : String) :
    Except String DataTable :=
  if valsSubsetCols t.cols vals then
    .ok { t with
          rows := t.rows.filter (fun r => r.id ≠ rid) ++
            [⟨rid, created_at.getD now, updated_at.getD now, buildCells t.cols vals⟩],
          seq := max t.seq rid }
  else .error "no such column"

/-- Model of `MetaRepository.delete_record`: hard delete of the row with
the given id. -/
def deleteRecord (t : DataTable) (rid : Nat) : DataTable :=
  { t with rows := t.rows.filter (fun r => r.id ≠ rid) }

/-- Model of `MetaRepository.get_record_by_id`. -/
def getRecordById (t : DataTable) (rid : Nat) : Option DataRow :=
  t.rows.find? (fun r => r.id = rid)

/-! ## Metadata catalog (`meta_projects`, `meta_tables`, `meta_fields`) -/

/-- Value inside a parsed `options_json` dict: a scalar or a JSON list.
`add_field` stores the dict back with `json.dumps`, which our model
treats as the identity on the parsed form. -/
inductive OptVal where
  | scalar : JVal → OptVal
  | list : List JVal → OptVal
deriving DecidableEq, Repr

/-- Parsed `options_json` dict of a field. -/
abbrev FieldOptions := List (String × OptVal)

/-- Row of `meta_projects`. -/
structure ProjectRow where
  id : Nat
  name : String
  parent_id : Option Nat
  color : String
  created_at : String
  updated_at : String
deriving DecidableEq, Repr

/-- Row of `meta_tables`. -/
structure TableRow where
  id : Nat
  name : String
  project_id : Option Nat
  created_at : String
  updated_at : String
deriving DecidableEq, Repr

/-- Row of `meta_fields` (`position` is a nullable INTEGER column; reads
apply `COALESCE(position, id)`). -/
structure FieldRow where
  id : Nat
  table_id : Nat
  name : String
  ftype : String
  required : Nat
  active : Nat
  position : Option Int
  options : FieldOptions
  created_at : String
  updated_at : String
deriving DecidableEq, Repr

/-- Whole repository state: the three catalog tables plus the physical
`data_<table_id>` tables (keyed by table id) and the `meta_fields`
AUTOINCREMENT sequence. -/
structure Repo where
  projects : List ProjectRow
  tables : List TableRow
  fields : List FieldRow
  dataTables : List (Nat × DataTable)
  fieldSeq : Nat
deriving DecidableEq, Repr

namespace Repo

/-- Physical data table for a logical table id, as found on disk
(missing means not yet provisioned). -/
def dataTable (repo : Repo) (tid : Nat) : Option DataTable :=
  dictGet repo.dataTables tid

/-- Model of `_ensure_data_table`: provision the physical table if and
only if it is absent. -/
def ensureDataTable (repo : Repo) (tid : Nat) : Repo :=
  match repo.dataTable tid with
  | some _ => repo
  | none => { repo with dataTables := repo.dataTables ++ [(tid, DataTable.empty)] }

/-- Replace the stored physical table for a table id. -/
def setDataTable (repo : Repo) (tid : Nat) (t : DataTable) : Repo :=
  { repo with
    dataTables := repo.dataTables.map (fun kv => if kv.1 = tid then (tid, t) else kv) }

end Repo

/-- The fixed `FIELD_TYPES` tuple of `repo.py`. -/
def FIELD_TYPES : List String :=
  ["text", "number", "date", "bool", "file", "select", "relation", "path", "image"]

/-- Sort key used by `list_fields`: `COALESCE(position, id)`. -/
def fieldSortKey (f : FieldRow) : Int :=
  f.position.getD (f.id : Int)

/-- Ordering `ORDER BY COALESCE(position, id) ASC, id ASC` on field
rows. -/
def fieldRowLe (f g : FieldRow) : Prop :=
  fieldSortKey f < fieldSortKey g ∨ (fieldSortKey f = fieldSortKey g ∧ f.id ≤ g.id)

instance : DecidableRel fieldRowLe := by
  unfold fieldRowLe; infer_instance

/-- Model of `MetaRepository.list_fields`: the field rows of one table
(only active ones when `activeOnly`), ordered by
`COALESCE(position, id) ASC, id ASC`. -/
def listFields (repo : Repo) (tid : Nat) (activeOnly : Bool) : List FieldRow :=
  List.insertionSort fieldRowLe
    (repo.fields.filter (fun f => f.table_id = tid ∧ (activeOnly → f.active = 1)))

/-- Model of `MetaRepository._next_field_position`:
`COALESCE(MAX(COALESCE(position, id)), 0) + 1` over the table's
fields. -/
def nextFieldPosition (repo : Repo) (tid : Nat) : Int :=
  ((repo.fields.filter (fun f => f.table_id = tid)).map fieldSortKey).foldl max 0 + 1

/-- Validation for `select` options in `add_field`: `options.get("options", [])`
must be a list of strings. -/
def selectOptsOk (opts : FieldOptions) : Bool :=
  match dictGet opts "options" with
  | none => true
  | some (.list xs) => xs.all (fun x => match x with | .jStr _ => true | _ => false)
  | some (.scalar _) => false

/-- Integer value of a scalar option when it is a Python `int` instance
(bools included), `none` otherwise. -/
def optIntVal : Option OptVal → Option Int
  | some (.scalar (.jInt n)) => some n
  | some (.scalar (.jBool b)) => some (if b then 1 else 0)
  | _ => none

/-- Validation for `relation` options in `add_field`:
`options.get("target_table_id")` must be an `int` instance whose value is
positive (`int(x or 0) > 0`). -/
def relationTargetOk (opts : FieldOptions) : Bool :=
  match optIntVal (dictGet opts "target_table_id") with
  | some n => decide (0 < n)
  | none => false

/-- Validation for `relation` options in `add_field`: a present
`display_field_id` must be an `int` instance. -/
def relationDisplayOk (opts : FieldOptions) : Bool :=
  match dictGet opts "display_field_id" with
  | none => true
  | some v => (optIntVal (some v)).isSome

/-- Physical-column provisioning tail of `add_field`: ensure the data
table, then ensure the backing column with the DDL of the field type. -/
def provisionColumn (repo : Repo) (tid fid : Nat) (ftype : String) :
    Repo × Except String Nat :=
  let repo₂ := repo.ensureDataTable tid
  match repo₂.dataTable tid with
  | none => (repo₂, .error "no such table")
  | some dt =>
      match ddlDefaultForField ftype with
      | .error e => (repo₂, .error e)
      | .ok dflt =>
          match ensureColumn dt fid dflt with
          | .error e => (repo₂, .error e)
          | .ok dt₂ => (repo₂.setDataTable tid dt₂, .ok fid)

/-- Model of `MetaRepository.add_field`: validates name, type and
type-specific options, then inserts the catalog row (position one past
the current maximum) and provisions the physical column.  The returned
state reflects exactly the commits performed before any raise. -/
def addField (repo : Repo) (tid : Nat) (name ftype : String) (required : Bool)
    (options : Option FieldOptions) (now : String) : Repo × Except String Nat :=
  let name := pyStrip name
  if name = "" then (repo, .error "El nombre del campo es obligatorio.")
  else if ¬ (FIELD_TYPES.contains ftype) then (repo, .error "Tipo invalido.")
  else
    let opts := options.getD []
    if ftype = "select" ∧ ¬ selectOptsOk opts then
      (repo, .error "En select, options debe ser una lista de strings.")
    else if ftype = "relation" ∧ ¬ relationTargetOk opts then
      (repo, .error "En relation debes indicar target_table_id mayor que 0.")
    else if ftype = "relation" ∧ ¬ relationDisplayOk opts then
      (repo, .error "display_field_id debe ser int (o 0).")
    else
      let pos := nextFieldPosition repo tid
      let fid := repo.fieldSeq + 1
      let repo₁ : Repo :=
        { repo with
          fields := repo.fields ++
            [⟨fid, tid, name, ftype, if required then 1 else 0, 1,
              some pos, opts, now, now⟩],
          fieldSeq := fid }
      provisionColumn repo₁ tid fid ftype

/-- One `UPDATE meta_fields SET position=?, updated_at=? WHERE id=? AND
table_id=?` statement of the `reorder_fields` loop. -/
def updateFieldPos (fields : List FieldRow) (tid : Nat) (fid : Int) (i : Int)
    (now : String) : List FieldRow :=
  fields.map (fun f =>
    if (f.id : Int) = fid ∧ f.table_id = tid then
      { f with position := some i, updated_at := now }
    else f)

/-- Sequential UPDATE loop of `reorder_fields` (`enumerate(ids, start=1)`). -/
def reorderLoop (fields : List FieldRow) (tid : Nat) :
    List Int → Int → String → List FieldRow
  | [], _, _ => fields
  | fid :: rest, i, now =>
      reorderLoop (updateFieldPos fields tid fid i now) tid rest (i + 1) now

/-- Model of `MetaRepository.reorder_fields`: drops non-positive ids,
no-ops on an empty list, then rewrites each listed field's position to
its 1-based rank, scoped by `table_id`. -/
def reorderFields (repo : Repo) (tid : Nat) (orderedIds : List Int)
    (now : String) : Repo :=
  let ids := orderedIds.filter (fun x => 0 < x)
  if ids.isEmpty then repo
  else { repo with fields := reorderLoop repo.fields tid ids 1 now }

/-- Model of `MetaRepository.delete_project` with an explicit recursion
budget (the Python code recurses on the child list; any acyclic project
forest is fully processed once the fuel exceeds its depth).  Children are
deleted first, then the tables owned by the project are reassigned to no
project, then the project row is removed.  Fuel 0 models a recursion
that never returned and leaves the state unchanged. -/
def deleteProject : Nat → Repo → Nat → String → Repo
  | 0, repo, _, _ => repo
  | n + 1, repo, pid, now =>
      let children :=
        (repo.projects.filter (fun p => p.parent_id = some pid)).map (·.id)
      let repo₁ := children.foldl (fun r c => deleteProject n r c now) repo
      let repo₂ : Repo :=
        { repo₁ with
          tables := repo₁.tables.map (fun t =>
            if t.project_id = some pid then
              { t with project_id := none, updated_at := now }
            else t) }
      { repo₂ with projects := repo₂.projects.filter (fun p => p.id ≠ pid) }

/-! ## Field dialog (`AddFieldDialog.get_data`, select branch) -/

/-- Order-preserving de-duplication with a seen-set, as in the
`seen, opts = set(), []` loop of `AddFieldDialog.get_data`. -/
def dedupKeepFirst (xs : List String) : List String :=
  (xs.foldl
    (fun (acc : List String × List String) x =>
      if x ∈ acc.1 then acc else (acc.1 ++ [x], acc.2 ++ [x]))
    ([], [])).2

/-- Raw-text parsing of the select options box: split into lines, split
each line on commas, strip, and drop empties. -/
def parseSelectParts (raw : String) : List String :=
  ((splitChar '\n' (pyStrip raw)).flatMap (fun line => splitChar ',' line)).map
      (fun p => pyStrip p)
    |>.filter (fun s => s ≠ "")

/-- Select-option list produced by `AddFieldDialog.get_data`: the parsed
parts de-duplicated keeping first occurrences. -/
def getDataSelectOptions (raw : String) : List String :=
  dedupKeepFirst (parseSelectParts raw)

/-! ## Query builder (`MetaRepository.list_records`)

The WHERE clause is modelled as data (`Clause`) with an evaluator giving
the SQLite comparison semantics on our typed cells, so that the
translation performed by `list_records` stays inspectable. -/

/-- SQLite comparison key of a stored value: storage-class rank
(NULL < numeric < text), then numeric value, then text. -/
structure SortKey where
  rank : Nat
  num : Int
  text : String
deriving DecidableEq, Repr

/-- Comparison key of a scalar (bools stored as integers). -/
def jvalKey : JVal → SortKey
  | .jNull => ⟨0, 0, ""⟩
  | .jInt n => ⟨1, n, ""⟩
  | .jBool b => ⟨1, if b then 1 else 0, ""⟩
  | .jStr s => ⟨2, 0, s⟩

/-- Strict SQLite value ordering on comparison keys. -/
def keyLt (a b : SortKey) : Prop :=
  a.rank < b.rank ∨
    (a.rank = b.rank ∧ (a.num < b.num ∨ (a.num = b.num ∧ a.text < b.text)))

instance : DecidableRel keyLt := by
  unfold keyLt; infer_instance

/-- Text form a value takes under SQL `CAST`/`LIKE`. -/
def jvalText : JVal → String
  | .jNull => ""
  | .jInt n => toString n
  | .jBool b => if b then "1" else "0"
  | .jStr s => s

/-- One atomic WHERE condition of the built query. -/
inductive Clause where
  | idLike : String → Clause
  | colLike : Nat → String → Clause
  | colEq : Nat → JVal → Clause
  | colGe : Nat → JVal → Clause
  | colLe : Nat → JVal → Clause
deriving DecidableEq, Repr

/-- Evaluate one clause on a row (NULL comparisons are false, as in
SQL). -/
def evalClause (r : DataRow) : Clause → Bool
  | .idLike pat => sqlLikeContains (toString r.id) pat
  | .colLike fid pat =>
      match (dictGet r.cells fid).getD .jNull with
      | .jNull => false
      | v => sqlLikeContains (jvalText v) pat
  | .colEq fid v =>
      let cell := (dictGet r.cells fid).getD .jNull
      if cell = .jNull ∨ v = .jNull then false else jvalKey cell = jvalKey v
  | .colGe fid v =>
      let cell := (dictGet r.cells fid).getD .jNull
      if cell = .jNull ∨ v = .jNull then false
      else ¬ keyLt (jvalKey cell) (jvalKey v)
  | .colLe fid v =>
      let cell := (dictGet r.cells fid).getD .jNull
      if cell = .jNull ∨ v = .jNull then false
      else ¬ keyLt (jvalKey v) (jvalKey cell)

/-- Free-text WHERE group (`if q:` branch of `list_records`): one OR
disjunction over the id cast to text and every searchable live field.
Only integral numbers are representable in our REAL model, so a
fractional free-text numeric query is treated as unparsable. -/
def freeTextClauses (fields : List FieldRow) (query : String) :
    Option (List Clause) :=
  let q := pyStrip query
  if q = "" then none
  else
    some (Clause.idLike q ::
      fields.flatMap (fun f =>
        let fid := f.id
        if ["text", "date", "file", "select", "path"].contains f.ftype then
          [Clause.colLike fid q]
        else if f.ftype = "number" then
          match parseIntDigits ⟨q.data.map (fun c => if c = ',' then '.' else c)⟩ with
          | some n => [Clause.colEq fid (.jInt n)]
          | none => []
        else if f.ftype = "bool" then
          if ["si", "sí", "true", "1", "yes"].contains (pyLower q) then
            [Clause.colEq fid (.jInt 1)]
          else if ["no", "false", "0"].contains (pyLower q) then
            [Clause.colEq fid (.jInt 0)]
          else []
        else if f.ftype = "relation" then
          match parseIntDigits q with
          | some n => [Clause.colEq fid (.jInt n)]
          | none => []
        else []))

/-- Value of a structured filter entry: a Python dict or some other
(skipped) value. -/
inductive FilterVal where
  | scalar : JVal → FilterVal
  | dict : List (String × JVal) → FilterVal
deriving DecidableEq, Repr

/-- Structured filter map (`filters.items()` in iteration order; keys may
be ints or their string forms after a JSON round trip). -/
abbrev Filters := List (JVal × FilterVal)

/-- Membership test of `fval["is"]` in the Python tuple `(0, 1)`
(Python bools compare equal to 0/1). -/
def boolIs01 : JVal → Option Int
  | .jInt 0 => some 0
  | .jInt 1 => some 1
  | .jBool b => some (if b then 1 else 0)
  | _ => none

/-- Per-type WHERE clauses for one structured filter entry on a known
live field, as built by the filter loop of `list_records`.  A `float()`
or `int()` conversion failure raises, which errors the whole request. -/
def filterClauseForEntry (f : FieldRow) (d : List (String × JVal)) :
    Except String (List Clause) :=
  let fid := f.id
  if ["text", "file", "select", "path"].contains f.ftype then
    let containsBranch : List Clause :=
      match dictGet d "contains" with
      | some v => if pyStrip (pyStr v) ≠ "" then [Clause.colLike fid (pyStr v)] else []
      | none => []
    match dictGet d "equals" with
    | some v =>
        if pyStrip (pyStr v) ≠ "" then .ok [Clause.colEq fid (.jStr (pyStr v))]
        else .ok containsBranch
    | none => .ok containsBranch
  else if f.ftype = "number" then do
    let lo ← match dictGet d "min" with
      | some v =>
          if v = .jNull then pure []
          else do
            let m ← pyToFloat v
            pure [Clause.colGe fid (.jInt m)]
      | none => pure []
    let hi ← match dictGet d "max" with
      | some v =>
          if v = .jNull then pure []
          else do
            let m ← pyToFloat v
            pure [Clause.colLe fid (.jInt m)]
      | none => pure []
    pure (lo ++ hi)
  else if f.ftype = "date" then
    let lo :=
      match dictGet d "from" with
      | some v =>
          if pyStrip (pyStr v) ≠ "" then [Clause.colGe fid (.jStr (pyStr v))] else []
      | none => []
    let hi :=
      match dictGet d "to" with
      | some v =>
          if pyStrip (pyStr v) ≠ "" then [Clause.colLe fid (.jStr (pyStr v))] else []
      | none => []
    .ok (lo ++ hi)
  else if f.ftype = "bool" then
    match dictGet d "is" with
    | some v =>
        match boolIs01 v with
        | some n => .ok [Clause.colEq fid (.jInt n)]
        | none => .ok []
    | none => .ok []
  else if f.ftype = "relation" then
    match dictGet d "is" with
    | some v => do
        let n ← pyToInt (if v.truthy then v else .jInt 0)
        if 0 < n then
          let m ← pyToInt v
          pure [Clause.colEq fid (.jInt m)]
        else pure []
    | none => .ok []
  else .ok []

/-- Lookup of a (possibly negative) integer key in the live-field dict. -/
def findFieldByIntId (fieldsById : List (Nat × FieldRow)) (fid : Int) :
    Option FieldRow :=
  (fieldsById.find? (fun kv => (kv.1 : Int) = fid)).map (·.2)

/-- Structured-filter translation loop of `list_records`: keys that fail
`int()` and ids not among the live fields are skipped (`continue`), as
are non-dict filter values; clauses of successive entries are joined into
one AND list. -/
def filterClauses (fieldsById : List (Nat × FieldRow)) :
    Filters → Except String (List Clause)
  | [] => .ok []
  | (k, fv) :: rest =>
      match pyToInt k with
      | .error _ => filterClauses fieldsById rest
      | .ok fid =>
          match findFieldByIntId fieldsById fid with
          | none => filterClauses fieldsById rest
          | some f =>
              match fv with
              | .scalar _ => filterClauses fieldsById rest
              | .dict d => do
                  let cs ← filterClauseForEntry f d
                  let csR ← filterClauses fieldsById rest
                  pure (cs ++ csR)

/-- Conjunction of the optional free-text OR group and the AND list of
structured-filter clauses, as in the final `WHERE ... AND ...`. -/
def rowMatches (og : Option (List Clause)) (cs : List Clause) (r : DataRow) :
    Bool :=
  (match og with
   | none => true
   | some os => os.any (evalClause r)) &&
  cs.all (evalClause r)

/-- ORDER BY column chosen by `list_records`. -/
inductive OrderCol where
  | recId : OrderCol
  | fieldCol : Nat → OrderCol
deriving DecidableEq, Repr

/-- Model of the order-column selection: the field's physical column when
`sort_field_id` is given and names a live field, `id` otherwise. -/
def orderColFor (fieldsById : List (Nat × FieldRow)) (sortFieldId : Option Int) :
    OrderCol :=
  match sortFieldId with
  | none => .recId
  | some sfid =>
      if fieldsById.any (fun kv => (kv.1 : Int) = sfid) then .fieldCol sfid.toNat
      else .recId

/-- Model of the direction normalization
`(sort_dir or "DESC").upper()` followed by the ASC/DESC whitelist. -/
def normSortDir (sortDir : Option String) : String :=
  let s := match sortDir with
    | none => "DESC"
    | some s => if s = "" then "DESC" else s
  let u := pyUpper s
  if u = "ASC" ∨ u = "DESC" then u else "DESC"

/-- Comparison key of a row under a given ORDER BY column. -/
def rowSortVal (col : OrderCol) (r : DataRow) : SortKey :=
  match col with
  | .recId => ⟨1, (r.id : Int), ""⟩
  | .fieldCol fid => jvalKey ((dictGet r.cells fid).getD .jNull)

/-- Total row ordering `ORDER BY <col> <dir>, id DESC` used to model the
result order of `list_records`. -/
def rowOrder (col : OrderCol) (asc : Bool) (r1 r2 : DataRow) : Prop :=
  if rowSortVal col r1 = rowSortVal col r2 then r2.id ≤ r1.id
  else if asc then keyLt (rowSortVal col r1) (rowSortVal col r2)
  else keyLt (rowSortVal col r2) (rowSortVal col r1)

instance (col : OrderCol) (asc : Bool) : DecidableRel (rowOrder col asc) := by
  unfold rowOrder; infer_instance

/-- Model of `MetaRepository.list_records`: provisions the physical
table, translates the free-text query and structured filters over the
live fields, and returns the matching rows ordered by the chosen column
and direction with the `id DESC` tiebreak, truncated to `limit`. -/
def listRecords (repo : Repo) (tid : Nat) (query : String) (limit : Nat)
    (filters : Filters) (sortFieldId : Option Int) (sortDir : Option String) :
    Repo × Except String (List DataRow) :=
  let repo := repo.ensureDataTable tid
  match repo.dataTable tid with
  | none => (repo, .error "no such table")
  | some dt =>
      let fields := listFields repo tid true
      let fbid := fields.map (fun f => (f.id, f))
      let og := freeTextClauses fields query
      match filterClauses fbid filters with
      | .error e => (repo, .error e)
      | .ok cs =>
          let ocol := orderColFor fbid sortFieldId
          let dir := normSortDir sortDir
          let matching := dt.rows.filter (rowMatches og cs)
          let sorted := List.insertionSort (rowOrder ocol (dir = "ASC")) matching
          (repo, .ok (sorted.take limit))

/-! ## Table-view relation labels (`TableView.get_relation_options`,
`TableView._relation_label`) -/

/-- Model of `TableView.get_relation_options` (cache miss path): queries
the target table ordered ascending, picks the first `text`/`select`/`path`
live field as label source, and falls back to the stringified id for a
missing label column or an empty label. -/
def getRelationOptions (repo : Repo) (relTid : Nat) : List (Nat × String) :=
  match (listRecords repo relTid "" 5000 [] none (some "ASC")).2 with
  | .error _ => []
  | .ok rows =>
      let relFields := listFields repo relTid true
      let labelFid : Option Nat :=
        (relFields.find? (fun f => ["text", "select", "path"].contains f.ftype)).map (·.id)
      rows.map (fun r =>
        let label :=
          match labelFid with
          | some lf =>
              if (r.cells.map Prod.fst).contains lf then
                pyStr ((dictGet r.cells lf).getD .jNull)
              else toString r.id
          | none => toString r.id
        (r.id, if label = "" then toString r.id else label))

/-- Model of `TableView._relation_label`: the empty string for
`None`/`""`/`0`, the stringified raw value when it does not parse as an
int, the stringified id when the options dict carries no truthy
`table_id`, and otherwise the first matching label from
`get_relation_options` with the stringified id as fallback.  The argument
`fieldOptionsDict` is the value of `field.get("options")`. -/
def optTruthy : Option OptVal → Bool
  | some (.scalar v) => v.truthy
  | some (.list xs) => ¬ xs.isEmpty
  | none => false

def relationLabel (repo : Repo) (fieldOptionsDict : Option FieldOptions)
    (rid : JVal) : Except String String :=
  if rid = .jNull ∨ rid = .jStr "" ∨ rid = .jInt 0 ∨ rid = .jBool false then
    .ok ""
  else
    match pyToInt rid with
    | .error _ => .ok (pyStr rid)
    | .ok ridN =>
        let relTableIdVal := dictGet (fieldOptionsDict.getD []) "table_id"
        if ¬ optTruthy relTableIdVal then .ok (toString ridN)
        else
          match relTableIdVal with
          | some (.scalar v) => do
              let tidN ← pyToInt v
              match (getRelationOptions repo tidN.toNat).find?
                  (fun p => (p.1 : Int) = ridN) with
              | some p => pure p.2
              | none => pure (toString ridN)
          | some (.list _) => .error "int of list"
          | none => .ok (toString ridN)

/-! ## Undo/redo command history (`TableView.push_cmd` / `undo` / `redo`) -/

/-- History state of one open table view: `_undo`, `_undo_idx`, and the
`_in_undo_redo` reentrancy guard. -/
structure CmdHist (α : Type) where
  undoList : List α
  undoIdx : Nat
  inUndoRedo : Bool
deriving DecidableEq, Repr

/-- Model of `TableView.push_cmd`: ignored during a programmatic
undo/redo; otherwise truncates the abandoned redo branch, appends, and
advances the cursor. -/
def pushCmd {α : Type} (h : CmdHist α) (c : α) : CmdHist α :=
  if h.inUndoRedo then h
  else
    { h with
      undoList := h.undoList.take h.undoIdx ++ [c],
      undoIdx := h.undoIdx + 1 }

/-- History effect of `TableView.undo`: a no-op at cursor 0, otherwise
the cursor moves back one entry (whose undo action then runs with the
guard set). -/
def undoStep {α : Type} (h : CmdHist α) : CmdHist α :=
  if h.undoIdx = 0 then h else { h with undoIdx := h.undoIdx - 1 }

/-- History effect of `TableView.redo`: a no-op at the end of the list,
otherwise the cursor moves forward one entry (whose redo action runs with
the guard set). -/
def redoStep {α : Type} (h : CmdHist α) : CmdHist α :=
  if h.undoIdx ≥ h.undoList.length then h else { h with undoIdx := h.undoIdx + 1 }

/-- One history operation of a session. -/
inductive HistOp (α : Type) where
  | push : α → HistOp α
  | undoOp : HistOp α
  | redoOp : HistOp α

/-- Apply one history operation. -/
def applyHistOp {α : Type} (h : CmdHist α) : HistOp α → CmdHist α
  | .push c => pushCmd h c
  | .undoOp => undoStep h
  | .redoOp => redoStep h

/-- Run a whole session of history operations from a starting state. -/
def applyHistOps {α : Type} (h : CmdHist α) (ops : List (HistOp α)) : CmdHist α :=
  ops.foldl applyHistOp h

/-- Empty history of a freshly opened table view. -/
def emptyHist (α : Type) : CmdHist α := ⟨[], 0, false⟩

/-! ## Record commands of the table view (`TableView.add_record`,
`TableView.delete_record`)

The dialog and message-box plumbing is outside the data layer; what the
commands capture and replay is modelled exactly: the add command's undo
deletes by id and its redo re-inserts the captured values with the same
id but no explicit timestamps, while the delete command captures the live
fields' prior values plus both audit columns and re-inserts them all. -/

/-- Per-field snapshot taken by `TableView.delete_record` before the
delete: for every listed field id, the row's cell when the physical
column exists, else `None`. -/
def captureOldVals (fieldIds : List Nat) (r : DataRow) : List (Nat × JVal) :=
  fieldIds.map (fun fid =>
    (fid,
     if (r.cells.map Prod.fst).contains fid then (dictGet r.cells fid).getD .jNull
     else .jNull))

/-! # Claims -/

/-! ## Helper lemmas -/

theorem ensureColumn_contains (t : DataTable) (fid : Nat) (dflt : JVal)
    (h : (t.cols.map Prod.fst).contains fid = true) :
    ensureColumn t fid dflt = .ok t := by
  unfold ensureColumn
  rw [if_pos h]

theorem ensureColumn_absent (t : DataTable) (fid : Nat) (dflt : JVal)
    (h : ¬ (t.cols.map Prod.fst).contains fid = true) :
    ensureColumn t fid dflt =
      .ok { t with
            cols := t.cols ++ [(fid, dflt)],
            rows := t.rows.map (fun r => { r with cells := r.cells ++ [(fid, dflt)] }) } := by
  unfold ensureColumn alterAddColumn
  rw [if_neg h, if_neg h]

/-- Claim C9 - `addColumn` (`_ensure_column`) is idempotent: the first
call always succeeds, the second call with the same field succeeds and
returns the state unchanged (so it adds no second column and changes no
stored data), and after the first call the column appears exactly once
when it was not already duplicated. -/
theorem ensure_column_idempotent (t : DataTable) (fid : Nat) (dflt : JVal) :
    ∃ t₁, ensureColumn t fid dflt = .ok t₁ ∧
      ensureColumn t₁ fid dflt = .ok t₁ ∧
      (t₁.cols.map Prod.fst).count fid =
        max ((t.cols.map Prod.fst).count fid) 1 := by
  by_cases h : (t.cols.map Prod.fst).contains fid = true
  · refine ⟨t, ensureColumn_contains t fid dflt h, ensureColumn_contains t fid dflt h, ?_⟩
    have h1 : 1 ≤ (t.cols.map Prod.fst).count fid :=
      List.one_le_count_iff.mpr (by simpa using h)
    omega
  · refine ⟨_, ensureColumn_absent t fid dflt h, ?_, ?_⟩
    · apply ensureColumn_contains
      simp
    · have h0 : (t.cols.map Prod.fst).count fid = 0 :=
        List.count_eq_zero.mpr (by simpa using h)
      simp [List.count_append, h0]

/-- Cursor bound is preserved by each single history operation. -/
theorem applyHistOp_cursor_le {α : Type} (h : CmdHist α) (op : HistOp α)
    (hle : h.undoIdx ≤ h.undoList.length) :
    (applyHistOp h op).undoIdx ≤ (applyHistOp h op).undoList.length := by
  cases op with
  | push c =>
      simp only [applyHistOp, pushCmd]
      split
      · exact hle
      · simp only [List.length_append, List.length_take, List.length_cons,
          List.length_nil]
        omega
  | undoOp =>
      simp only [applyHistOp, undoStep]
      split
      · exact hle
      · simp only; omega
  | redoOp =>
      simp only [applyHistOp, redoStep]
      split
      · exact hle
      · next hlt => simp only; omega

/-- Claim C10 - command-history invariant: starting from the empty
history, any sequence of record/undo/redo operations keeps the cursor at
most the number of entries (it is a `Nat`, hence never negative); `undo`
is a no-op at cursor 0, `redo` is a no-op when the cursor equals the
entry count, and `record` during a programmatic undo/redo leaves the
history unchanged. -/
theorem cmd_history_invariant (α : Type) (ops : List (HistOp α)) :
    (applyHistOps (emptyHist α) ops).undoIdx ≤
        (applyHistOps (emptyHist α) ops).undoList.length ∧
      (∀ h : CmdHist α, h.undoIdx = 0 → undoStep h = h) ∧
      (∀ h : CmdHist α, h.undoIdx = h.undoList.length → redoStep h = h) ∧
      (∀ (h : CmdHist α) (c : α), h.inUndoRedo = true → pushCmd h c = h) := by
  refine ⟨?_, ?_, ?_, ?_⟩
  · have main : ∀ (l : List (HistOp α)) (h : CmdHist α),
        h.undoIdx ≤ h.undoList.length →
        (applyHistOps h l).undoIdx ≤ (applyHistOps h l).undoList.length := by
      intro l
      induction l with
      | nil => intro h hle; exact hle
      | cons op rest ih =>
          intro h hle
          exact ih _ (applyHistOp_cursor_le h op hle)
    exact main ops (emptyHist α) (by simp [emptyHist])
  · intro h h0
    simp [undoStep, h0]
  · intro h h0
    simp [redoStep, h0]
  · intro h c hguard
    simp [pushCmd, hguard]

/-- Witness for C10: the hypothesis-bearing no-op clauses discharged at
concrete histories. -/
theorem cmd_history_invariant_witness :
    undoStep (⟨[0], 0, false⟩ : CmdHist Nat) = ⟨[0], 0, false⟩ ∧
      redoStep (⟨[0], 1, false⟩ : CmdHist Nat) = ⟨[0], 1, false⟩ ∧
      pushCmd (⟨[], 0, true⟩ : CmdHist Nat) 7 = ⟨[], 0, true⟩ :=
  ⟨(cmd_history_invariant Nat []).2.1 _ rfl,
   (cmd_history_invariant Nat []).2.2.1 _ rfl,
   (cmd_history_invariant Nat []).2.2.2 _ 7 rfl⟩

/-- Table ids survive `delete_project` untouched, for any fuel. -/
theorem deleteProject_tables_ids (now : String) :
    ∀ (n : Nat) (repo : Repo) (pid : Nat),
      ((deleteProject n repo pid now).tables).map TableRow.id =
        repo.tables.map TableRow.id := by
  intro n
  induction n with
  | zero => intro repo pid; rfl
  | succ n ih =>
      intro repo pid
      have hfold : ∀ (l : List Nat) (r : Repo),
          (((l.foldl (fun r c => deleteProject n r c now) r)).tables).map TableRow.id =
            r.tables.map TableRow.id := by
        intro l
        induction l with
        | nil => intro r; rfl
        | cons c cs ihl => intro r; rw [List.foldl_cons, ihl, ih]
      simp only [deleteProject]
      rw [List.map_map]
      rw [List.map_congr_left (g := TableRow.id) (fun t _ => by
        show TableRow.id (if t.project_id = some pid then
          { t with project_id := none, updated_at := now } else t) = TableRow.id t
        split <;> rfl)]
      exact hfold _ _

/-- Every table row after a `delete_project` corresponds to an original
row with the same id whose owner is either unchanged or cleared. -/
theorem deleteProject_tables_mem (now : String) :
    ∀ (n : Nat) (repo : Repo) (pid : Nat) (t₁ : TableRow),
      t₁ ∈ (deleteProject n repo pid now).tables →
      ∃ t ∈ repo.tables, t₁.id = t.id ∧
        (t₁.project_id = t.project_id ∨ t₁.project_id = none) := by
  intro n
  induction n with
  | zero => intro repo pid t₁ h; exact ⟨t₁, h, rfl, Or.inl rfl⟩
  | succ n ih =>
      intro repo pid t₁ h
      have hfold : ∀ (l : List Nat) (r : Repo) (t₁ : TableRow),
          t₁ ∈ ((l.foldl (fun r c => deleteProject n r c now) r)).tables →
          ∃ t ∈ r.tables, t₁.id = t.id ∧
            (t₁.project_id = t.project_id ∨ t₁.project_id = none) := by
        intro l
        induction l with
        | nil => intro r t₁ h; exact ⟨t₁, h, rfl, Or.inl rfl⟩
        | cons c cs ihl =>
            intro r t₁ h
            rw [List.foldl_cons] at h
            obtain ⟨t₂, ht₂, hid₂, hp₂⟩ := ihl _ t₁ h
            obtain ⟨t, ht, hid, hp⟩ := ih _ c t₂ ht₂
            refine ⟨t, ht, hid₂.trans hid, ?_⟩
            rcases hp₂ with h2 | h2
            · rw [h2]; exact hp
            · exact Or.inr h2
      simp only [deleteProject] at h
      obtain ⟨t₀, ht₀, rfl⟩ := List.mem_map.mp h
      obtain ⟨t, ht, hid, hp⟩ := hfold _ repo t₀ ht₀
      by_cases hc : t₀.project_id = some pid
      · rw [if_pos hc]
        exact ⟨t, ht, hid, Or.inr rfl⟩
      · rw [if_neg hc]
        exact ⟨t, ht, hid, hp⟩

/-- After a `delete_project` call with nonzero fuel, no table is owned by
the deleted project. -/
theorem deleteProject_no_owner (now : String) (n : Nat) (repo : Repo) (pid : Nat) :
    ∀ t ∈ (deleteProject (n + 1) repo pid now).tables, t.project_id ≠ some pid := by
  simp only [deleteProject]
  intro t ht
  obtain ⟨t₀, _, rfl⟩ := List.mem_map.mp ht
  by_cases hc : t₀.project_id = some pid
  · rw [if_pos hc]; simp
  · rw [if_neg hc]; exact hc

/-- Project rows are only ever removed by `delete_project`. -/
theorem deleteProject_projects_sub (now : String) :
    ∀ (n : Nat) (repo : Repo) (pid : Nat) (p : ProjectRow),
      p ∈ (deleteProject n repo pid now).projects → p ∈ repo.projects := by
  intro n
  induction n with
  | zero => intro repo pid p h; exact h
  | succ n ih =>
      intro repo pid p h
      have hfold : ∀ (l : List Nat) (r : Repo) (p : ProjectRow),
          p ∈ ((l.foldl (fun r c => deleteProject n r c now) r)).projects →
          p ∈ r.projects := by
        intro l
        induction l with
        | nil => intro r p h; exact h
        | cons c cs ihl =>
            intro r p h
            rw [List.foldl_cons] at h
            exact ih _ c p (ihl _ p h)
      simp only [deleteProject] at h
      exact hfold _ repo p (List.mem_filter.mp h).1

/-- After a `delete_project` call with nonzero fuel, the project row
itself is gone. -/
theorem deleteProject_removes (now : String) (n : Nat) (repo : Repo) (pid : Nat) :
    ∀ p ∈ (deleteProject (n + 1) repo pid now).projects, p.id ≠ pid := by
  simp only [deleteProject]
  intro p hp
  simpa using (List.mem_filter.mp hp).2

/-- Absence of a project id is preserved by further `delete_project`
calls. -/
theorem deleteProject_pres_no_proj (now : String) (c n : Nat) (repo : Repo)
    (pid : Nat) (habs : ∀ p ∈ repo.projects, p.id ≠ c) :
    ∀ p ∈ (deleteProject n repo pid now).projects, p.id ≠ c :=
  fun p hp => habs p (deleteProject_projects_sub now n repo pid p hp)

/-- Absence of any table owned by a given project is preserved by further
`delete_project` calls (owners are only ever cleared, never set). -/
theorem deleteProject_pres_no_owner (now : String) (c n : Nat) (repo : Repo)
    (pid : Nat) (habs : ∀ t ∈ repo.tables, t.project_id ≠ some c) :
    ∀ t ∈ (deleteProject n repo pid now).tables, t.project_id ≠ some c := by
  intro t₁ h
  obtain ⟨t, ht, _, hp⟩ := deleteProject_tables_mem now n repo pid t₁ h
  rcases hp with h2 | h2
  · rw [h2]; exact habs t ht
  · rw [h2]; simp

/-- Claim C8 - `delete_project` recursively deletes descendant projects
first and then clears `project_id` on the owned tables; it never deletes
a table row.  With fuel `n + 2` (enough for the project and its direct
children): table ids are exactly preserved; every surviving table row
keeps its original owner or has it cleared to NULL; no table remains
owned by the deleted project; the project row is gone; and every direct
child project is gone with none of its tables still owned by it. -/
theorem delete_project_spec (now : String) (n : Nat) (repo : Repo) (pid : Nat) :
    ((deleteProject (n + 2) repo pid now).tables).map TableRow.id =
        repo.tables.map TableRow.id ∧
      (∀ t₁ ∈ (deleteProject (n + 2) repo pid now).tables,
        ∃ t ∈ repo.tables, t₁.id = t.id ∧
          (t₁.project_id = t.project_id ∨ t₁.project_id = none)) ∧
      (∀ t ∈ (deleteProject (n + 2) repo pid now).tables,
        t.project_id ≠ some pid) ∧
      (∀ p ∈ (deleteProject (n + 2) repo pid now).projects, p.id ≠ pid) ∧
      (∀ c ∈ repo.projects, c.parent_id = some pid →
        (∀ p ∈ (deleteProject (n + 2) repo pid now).projects, p.id ≠ c.id) ∧
        (∀ t ∈ (deleteProject (n + 2) repo pid now).tables,
          t.project_id ≠ some c.id)) := by
  refine ⟨deleteProject_tables_ids now _ repo pid,
    deleteProject_tables_mem now _ repo pid,
    deleteProject_no_owner now _ repo pid,
    deleteProject_removes now _ repo pid, ?_⟩
  intro c hc hpar
  have hfold_pres : ∀ (l : List Nat) (r : Repo),
      ((∀ p ∈ r.projects, p.id ≠ c.id) ∧ (∀ t ∈ r.tables, t.project_id ≠ some c.id)) →
      ((∀ p ∈ (l.foldl (fun r x => deleteProject (n + 1) r x now) r).projects, p.id ≠ c.id) ∧
       (∀ t ∈ (l.foldl (fun r x => deleteProject (n + 1) r x now) r).tables,
          t.project_id ≠ some c.id)) := by
    intro l
    induction l with
    | nil => intro r h; exact h
    | cons x xs ihl =>
        intro r h
        rw [List.foldl_cons]
        exact ihl _ ⟨deleteProject_pres_no_proj now c.id (n + 1) r x h.1,
          deleteProject_pres_no_owner now c.id (n + 1) r x h.2⟩
  have hfold_hit : ∀ (l : List Nat) (r : Repo),
      c.id ∈ l →
      ((∀ p ∈ (l.foldl (fun r x => deleteProject (n + 1) r x now) r).projects, p.id ≠ c.id) ∧
       (∀ t ∈ (l.foldl (fun r x => deleteProject (n + 1) r x now) r).tables,
          t.project_id ≠ some c.id)) := by
    intro l
    induction l with
    | nil => intro r h; exact absurd h (List.not_mem_nil _)
    | cons x xs ihl =>
        intro r hmem
        rw [List.foldl_cons]
        rcases List.mem_cons.mp hmem with rfl | hmem
        · exact hfold_pres xs _
            ⟨deleteProject_removes now n r c.id,
             deleteProject_no_owner now n r c.id⟩
        · exact ihl _ hmem
  have hcid : c.id ∈
      ((repo.projects.filter (fun p => p.parent_id = some pid)).map ProjectRow.id) := by
    exact List.mem_map_of_mem _ (List.mem_filter.mpr ⟨hc, by simp [hpar]⟩)
  simp only [deleteProject]
  have hres := hfold_hit _ repo hcid
  constructor
  · intro p hp
    exact hres.1 p (List.mem_filter.mp hp).1
  · intro t ht
    obtain ⟨t₀, ht₀, rfl⟩ := List.mem_map.mp ht
    by_cases hcond : t₀.project_id = some pid
    · rw [if_pos hcond]; simp
    · rw [if_neg hcond]; exact hres.2 t₀ ht₀

/-- Concrete scenario used by the specification: a project (id 1) with a
subproject (id 2) and one owned table each. -/
def repoC8 : Repo :=
  { projects := [⟨1, "P", none, "c", "t0", "t0"⟩, ⟨2, "Q", some 1, "c", "t0", "t0"⟩],
    tables := [⟨1, "TA", some 1, "t0", "t0"⟩, ⟨2, "TB", some 2, "t0", "t0"⟩],
    fields := [], dataTables := [], fieldSeq := 0 }

/-- Witness for C8: the scenario of the spec evaluated through the
theorem - no table row is deleted, and neither the parent project nor
its subproject still owns a table afterwards. -/
theorem delete_project_spec_witness :
    ((deleteProject 2 repoC8 1 "t1").tables).map TableRow.id = [1, 2] ∧
      ((⟨1, "TA", none, "t0", "t1"⟩ : TableRow).project_id ≠ some 1) ∧
      ((⟨2, "TB", none, "t0", "t1"⟩ : TableRow).project_id ≠ some 2) :=
  ⟨(delete_project_spec "t1" 0 repoC8 1).1.trans rfl,
   (delete_project_spec "t1" 0 repoC8 1).2.2.1 _ (by decide),
   ((delete_project_spec "t1" 0 repoC8 1).2.2.2.2 ⟨2, "Q", some 1, "c", "t0", "t0"⟩
      (by decide) rfl).2 _ (by decide)⟩

/-- Closed form of the sequential UPDATE loop of `reorder_fields`: with
distinct ids, each matching field of the table receives `start + index`
as its position and everything else is untouched. -/
theorem reorderLoop_eq (tid : Nat) (now : String) :
    ∀ (ids : List Int) (fields : List FieldRow) (i : Int), ids.Nodup →
      reorderLoop fields tid ids i now =
        fields.map (fun f =>
          if (f.id : Int) ∈ ids ∧ f.table_id = tid then
            { f with position := some (i + (List.indexOf (f.id : Int) ids : Int)),
                     updated_at := now }
          else f) := by
  intro ids
  induction ids with
  | nil =>
      intro fields i _
      show fields = _
      calc fields = fields.map id := (List.map_id fields).symm
        _ = _ := List.map_congr_left (fun f _ => by
            rw [eq_comm, if_neg]
            · rfl
            · simp)
  | cons fid rest ih =>
      intro fields i hnd
      obtain ⟨hfid, hndr⟩ := List.nodup_cons.mp hnd
      show reorderLoop (updateFieldPos fields tid fid i now) tid rest (i + 1) now = _
      rw [ih _ (i + 1) hndr]
      unfold updateFieldPos
      rw [List.map_map]
      apply List.map_congr_left
      intro f _
      by_cases htid : f.table_id = tid
      · by_cases hid : (f.id : Int) = fid
        · have h1 : (if (f.id : Int) = fid ∧ f.table_id = tid then
              { f with position := some i, updated_at := now } else f) =
              { f with position := some i, updated_at := now } :=
            if_pos ⟨hid, htid⟩
          simp only [Function.comp_apply, h1]
          rw [if_neg (by simp only [not_and]; intro hmem; exact absurd (hid ▸ hmem) hfid)]
          rw [if_pos ⟨by rw [hid]; exact List.mem_cons_self fid rest, htid⟩]
          rw [hid, List.indexOf_cons_self]
          simp
        · have h1 : (if (f.id : Int) = fid ∧ f.table_id = tid then
              { f with position := some i, updated_at := now } else f) = f :=
            if_neg (by simp [hid])
          simp only [Function.comp_apply, h1]
          by_cases hmem : (f.id : Int) ∈ rest
          · rw [if_pos ⟨hmem, htid⟩,
              if_pos ⟨List.mem_cons_of_mem fid hmem, htid⟩]
            rw [List.indexOf_cons_ne rest (fun h => hid h.symm)]
            have : ((Nat.succ (List.indexOf (f.id : Int) rest) : Nat) : Int) =
                (List.indexOf (f.id : Int) rest : Int) + 1 := by
              simp [Nat.succ_eq_add_one]
            rw [this,
              show i + 1 + (List.indexOf (f.id : Int) rest : Int) =
                i + ((List.indexOf (f.id : Int) rest : Int) + 1) by ring]
          · rw [if_neg (by simp [hmem]),
              if_neg (by
                simp only [List.mem_cons, not_and]
                rintro (h | h)
                · exact absurd h hid
                · exact absurd h hmem)]
      · have h1 : (if (f.id : Int) = fid ∧ f.table_id = tid then
            { f with position := some i, updated_at := now } else f) = f :=
          if_neg (by simp [htid])
        simp only [Function.comp_apply, h1]
        rw [if_neg (by simp [htid]), if_neg (by simp [htid])]

/-- Claim C5 - `reorder_fields(tableId, orderedIds)` (for genuine ids:
positive and distinct) sets each listed field's position to its 1-based
rank in `orderedIds`, scoped to fields of that table: an id belonging to
a different table is ignored without error, every field of any other
table keeps its row (in particular its position) unchanged, and no other
part of the catalog is touched. -/
theorem reorder_fields_spec (repo : Repo) (tid : Nat) (orderedIds : List Int)
    (now : String) (hpos : ∀ x ∈ orderedIds, 0 < x) (hnd : orderedIds.Nodup) :
    (reorderFields repo tid orderedIds now).fields =
        repo.fields.map (fun f =>
          if (f.id : Int) ∈ orderedIds ∧ f.table_id = tid then
            { f with position := some (1 + (List.indexOf (f.id : Int) orderedIds : Int)),
                     updated_at := now }
          else f) ∧
      (reorderFields repo tid orderedIds now).projects = repo.projects ∧
      (reorderFields repo tid orderedIds now).tables = repo.tables ∧
      (reorderFields repo tid orderedIds now).dataTables = repo.dataTables := by
  have hfil : orderedIds.filter (fun x => decide (0 < x)) = orderedIds :=
    List.filter_eq_self.mpr (fun a ha => by simpa using hpos a ha)
  refine ⟨?_, ?_, ?_, ?_⟩
  · simp only [reorderFields, hfil]
    by_cases he : orderedIds.isEmpty
    · rw [if_pos he]
      obtain rfl : orderedIds = [] := List.isEmpty_iff.mp he
      calc repo.fields = repo.fields.map id := (List.map_id repo.fields).symm
        _ = _ := List.map_congr_left (fun f _ => by
            rw [eq_comm, if_neg]
            · rfl
            · simp)
    · rw [if_neg he]
      exact reorderLoop_eq tid now orderedIds repo.fields 1 hnd
  all_goals
    simp only [reorderFields, hfil]
    split <;> rfl

/-- Catalog used to exercise field reordering: two fields on table 1, one
field on table 2. -/
def repoC5 : Repo :=
  { projects := [], tables := [⟨1, "T1", none, "t0", "t0"⟩, ⟨2, "T2", none, "t0", "t0"⟩],
    fields := [⟨1, 1, "a", "text", 0, 1, some 1, [], "t0", "t0"⟩,
               ⟨2, 1, "b", "text", 0, 1, some 2, [], "t0", "t0"⟩,
               ⟨3, 2, "c", "text", 0, 1, some 1, [], "t0", "t0"⟩],
    dataTables := [], fieldSeq := 3 }

/-- Witness for C5: reordering table 1 as `[2, 1]` gives field 2 rank 1
and field 1 rank 2 while the field of table 2 keeps its position. -/
theorem reorder_fields_spec_witness :
    (reorderFields repoC5 1 [2, 1] "t1").fields =
      [⟨1, 1, "a", "text", 0, 1, some 2, [], "t0", "t1"⟩,
       ⟨2, 1, "b", "text", 0, 1, some 1, [], "t0", "t1"⟩,
       ⟨3, 2, "c", "text", 0, 1, some 1, [], "t0", "t0"⟩] := by
  rw [(reorder_fields_spec repoC5 1 [2, 1] "t1" (by decide) (by decide)).1]
  rfl

theorem dictGet_append_none {α β : Type} [DecidableEq α] (l₁ l₂ : List (α × β))
    (k : α) (h : dictGet l₁ k = none) :
    dictGet (l₁ ++ l₂) k = dictGet l₂ k := by
  induction l₁ with
  | nil => rfl
  | cons kv rest ih =>
      rw [List.cons_append]
      simp only [dictGet] at h ⊢
      by_cases hk : kv.1 = k
      · rw [if_pos hk] at h
        exact absurd h (by simp)
      · rw [if_neg hk] at h ⊢
        exact ih h

theorem ensureDataTable_dataTable (repo : Repo) (tid : Nat) :
    ∃ dt, (repo.ensureDataTable tid).dataTable tid = some dt := by
  unfold Repo.ensureDataTable
  cases h : repo.dataTable tid with
  | some dt => exact ⟨dt, h⟩
  | none =>
      refine ⟨DataTable.empty, ?_⟩
      show dictGet (repo.dataTables ++ [(tid, DataTable.empty)]) tid = _
      rw [dictGet_append_none _ _ _ h]
      simp [dictGet]

theorem provisionColumn_ok (r : Repo) (t fid : Nat) (ft : String) (d : JVal)
    (hd : ddlDefaultForField ft = .ok d) :
    (provisionColumn r t fid ft).2 = .ok fid := by
  simp only [provisionColumn]
  obtain ⟨dt, hdt⟩ := ensureDataTable_dataTable r t
  rw [hdt, hd]
  dsimp only
  by_cases hcol : ((dt.cols.map Prod.fst).contains fid) = true
  · rw [ensureColumn_contains _ _ _ hcol]
  · rw [ensureColumn_absent _ _ _ hcol]

theorem provisionColumn_fields (r : Repo) (t fid : Nat) (ft : String) :
    (provisionColumn r t fid ft).1.fields = r.fields := by
  have hens : (r.ensureDataTable t).fields = r.fields := by
    unfold Repo.ensureDataTable
    cases r.dataTable t <;> rfl
  simp only [provisionColumn]
  cases hdt : (r.ensureDataTable t).dataTable t with
  | none => exact hens
  | some dt =>
      dsimp only
      cases hd : ddlDefaultForField ft with
      | error e => exact hens
      | ok dflt =>
          dsimp only
          cases hc : ensureColumn dt fid dflt with
          | error e => exact hens
          | ok dt₂ => exact hens

/-- Table catalog with a single table (id 1); table id 999 does not
exist. -/
def repoC2 : Repo :=
  { projects := [], tables := [⟨1, "T", none, "t0", "t0"⟩],
    fields := [], dataTables := [(1, DataTable.empty)], fieldSeq := 0 }

/-- Counterexample to C2 as stated: `add_field` with
`target_table_id = 999`, a positive reference to a table that does not
exist, raises no validation error and commits the field row. -/
theorem add_field_relation_counterexample :
    (addField repoC2 1 "rel" "relation" false
        (some [("target_table_id", .scalar (.jInt 999))]) "t1").2 = .ok 1 ∧
      repoC2.tables.all (fun t => t.id ≠ 999) = true ∧
      ((addField repoC2 1 "rel" "relation" false
          (some [("target_table_id", .scalar (.jInt 999))]) "t1").1).fields.length = 1 := by
  refine ⟨by decide, by decide, by decide⟩

/-- Claim C2 (amended) - `add_field` with `ftype=relation` succeeds
exactly when the trimmed name is non-empty, `options.target_table_id` is
an `int` instance with a positive value, and any present
`display_field_id` is an `int` instance; whether a table with that id
exists is never consulted.  On a validation failure the call raises and
the catalog state is returned unchanged (no partial mutation). -/
theorem add_field_relation_validation (repo : Repo) (tid : Nat) (nm : String)
    (required : Bool) (opts : FieldOptions) (now : String) :
    ((pyStrip nm ≠ "" ∧ relationTargetOk opts = true ∧ relationDisplayOk opts = true) →
        (addField repo tid nm "relation" required (some opts) now).2 =
          .ok (repo.fieldSeq + 1)) ∧
      (¬ (pyStrip nm ≠ "" ∧ relationTargetOk opts = true ∧ relationDisplayOk opts = true) →
        ∃ e, addField repo tid nm "relation" required (some opts) now =
          (repo, .error e)) ∧
      (relationTargetOk opts = true ↔
        ∃ n, optIntVal (dictGet opts "target_table_id") = some n ∧ 0 < n) := by
  have hprov : ∀ (r : Repo) (t fid : Nat),
      (provisionColumn r t fid "relation").2 = .ok fid :=
    fun r t fid => provisionColumn_ok r t fid "relation" (.jInt 0) rfl
  refine ⟨?_, ?_, ?_⟩
  · rintro ⟨h1, h2, h3⟩
    simp only [addField]
    rw [if_neg h1, if_neg (by decide),
      if_neg (by rintro ⟨h, -⟩; exact absurd h (by decide)),
      if_neg (by rintro ⟨-, h⟩; exact h h2),
      if_neg (by rintro ⟨-, h⟩; exact h h3)]
    exact hprov _ tid (repo.fieldSeq + 1)
  · intro h
    by_cases h1 : pyStrip nm = ""
    · exact ⟨"El nombre del campo es obligatorio.",
        by simp only [addField]; rw [if_pos h1]⟩
    · by_cases h2 : relationTargetOk opts = true
      · by_cases h3 : relationDisplayOk opts = true
        · exact absurd ⟨h1, h2, h3⟩ h
        · refine ⟨"display_field_id debe ser int (o 0).", ?_⟩
          simp only [addField]
          rw [if_neg h1, if_neg (by decide),
            if_neg (by rintro ⟨h, -⟩; exact absurd h (by decide)),
            if_neg (by rintro ⟨-, h⟩; exact h h2),
            if_pos ⟨by trivial, by simpa using h3⟩]
      · refine ⟨"En relation debes indicar target_table_id mayor que 0.", ?_⟩
        simp only [addField]
        rw [if_neg h1, if_neg (by decide),
          if_neg (by rintro ⟨h, -⟩; exact absurd h (by decide)),
          if_pos ⟨by trivial, by simpa using h2⟩]
  · unfold relationTargetOk
    cases h : optIntVal (dictGet opts "target_table_id") with
    | none => simp
    | some n =>
        simp only []
        constructor
        · intro hp
          exact ⟨n, rfl, by simpa using hp⟩
        · rintro ⟨m, hm, hmp⟩
          obtain rfl : n = m := by injection hm
          simpa using hmp

/-- Witness for C2: the amended validation applied at concrete inputs -
a positive (even dangling) target succeeds, a zero target is rejected
with the state unchanged. -/
theorem add_field_relation_validation_witness :
    (addField repoC2 1 "rel" "relation" false
        (some [("target_table_id", .scalar (.jInt 999))]) "t1").2 = .ok 1 ∧
      ∃ e, addField repoC2 1 "rel" "relation" false
          (some [("target_table_id", .scalar (.jInt 0))]) "t1" = (repoC2, .error e) :=
  ⟨(add_field_relation_validation repoC2 1 "rel" false
      [("target_table_id", .scalar (.jInt 999))] "t1").1
      ⟨by decide, by decide, by decide⟩,
   (add_field_relation_validation repoC2 1 "rel" false
      [("target_table_id", .scalar (.jInt 0))] "t1").2.1
      (by intro h; exact absurd h.2.1 (by decide))⟩

/-- Counterexample to C3 as stated: `add_field` called with the option
list `["Open", "Done", "Open"]` stores that list verbatim - the stored
option list keeps the duplicate, so it is not the de-duplicated input. -/
theorem add_field_select_counterexample :
    ((addField repoC2 1 "Status" "select" false
          (some [("options", .list [.jStr "Open", .jStr "Done", .jStr "Open"])])
          "t1").1.fields.map (fun f => dictGet f.options "options")) =
        [some (.list [.jStr "Open", .jStr "Done", .jStr "Open"])] ∧
      [JVal.jStr "Open", .jStr "Done", .jStr "Open"] ≠
        [JVal.jStr "Open", .jStr "Done"] := by
  exact ⟨by decide, by decide⟩

/-- Reference recursion for the seen-set de-duplication loop. -/
def dedupRec (seen : List String) : List String → List String
  | [] => []
  | x :: rest =>
      if x ∈ seen then dedupRec seen rest
      else x :: dedupRec (seen ++ [x]) rest

theorem dedupKeepFirst_go (xs : List String) :
    ∀ (seen out : List String),
      (xs.foldl
        (fun (acc : List String × List String) x =>
          if x ∈ acc.1 then acc else (acc.1 ++ [x], acc.2 ++ [x]))
        (seen, out)).2 = out ++ dedupRec seen xs := by
  induction xs with
  | nil => intro seen out; simp [dedupRec]
  | cons x rest ih =>
      intro seen out
      rw [List.foldl_cons]
      by_cases hx : x ∈ seen
      · rw [if_pos hx]
        rw [ih seen out]
        simp [dedupRec, hx]
      · rw [if_neg hx]
        rw [ih (seen ++ [x]) (out ++ [x])]
        simp [dedupRec, hx]

theorem dedupRec_sublist (xs : List String) :
    ∀ seen, (dedupRec seen xs).Sublist xs := by
  induction xs with
  | nil => intro seen; simp [dedupRec]
  | cons x rest ih =>
      intro seen
      by_cases hx : x ∈ seen
      · simp only [dedupRec, if_pos hx]
        exact (ih seen).cons x
      · simp only [dedupRec, if_neg hx]
        exact (ih (seen ++ [x])).cons₂ x

theorem dedupRec_mem (xs : List String) :
    ∀ seen a, a ∈ dedupRec seen xs ↔ (a ∈ xs ∧ a ∉ seen) := by
  induction xs with
  | nil => intro seen a; simp [dedupRec]
  | cons x rest ih =>
      intro seen a
      by_cases hx : x ∈ seen
      · simp only [dedupRec, if_pos hx, ih, List.mem_cons]
        constructor
        · rintro ⟨ha, hs⟩; exact ⟨Or.inr ha, hs⟩
        · rintro ⟨ha | ha, hs⟩
          · exact absurd (ha ▸ hx) hs
          · exact ⟨ha, hs⟩
      · simp only [dedupRec, if_neg hx, List.mem_cons, ih, List.mem_append,
          List.mem_singleton]
        constructor
        · rintro (rfl | ⟨ha, hs⟩)
          · exact ⟨Or.inl rfl, hx⟩
          · exact ⟨Or.inr ha, fun hc => hs (Or.inl hc)⟩
        · rintro ⟨rfl | ha, hs⟩
          · exact Or.inl rfl
          · by_cases hax : a = x
            · exact Or.inl hax
            · exact Or.inr ⟨ha, by simp [hs, hax]⟩

theorem dedupRec_nodup (xs : List String) :
    ∀ seen, (dedupRec seen xs).Nodup := by
  induction xs with
  | nil => intro seen; simp [dedupRec]
  | cons x rest ih =>
      intro seen
      by_cases hx : x ∈ seen
      · simp only [dedupRec, if_pos hx]; exact ih seen
      · simp only [dedupRec, if_neg hx]
        refine List.nodup_cons.mpr ⟨?_, ih (seen ++ [x])⟩
        intro hc
        exact ((dedupRec_mem rest (seen ++ [x]) x).mp hc).2 (by simp)

theorem dedupKeepFirst_eq (xs : List String) :
    dedupKeepFirst xs = dedupRec [] xs := by
  unfold dedupKeepFirst
  rw [dedupKeepFirst_go xs [] []]
  rfl

/-- Claim C3 (amended) - the de-duplication happens in the field
dialog, not in the repository: `AddFieldDialog.get_data` de-duplicates
the parsed option texts keeping first occurrences in order, while
`add_field` stores whatever option list it receives verbatim.  Hence a
select field created through the dialog stores the de-duplicated,
order-preserving option list, but `add_field` called directly with a
duplicated list stores the duplicate too. -/
theorem select_options_stored_spec (repo : Repo) (tid : Nat) (nm : String)
    (req : Bool) (now raw : String) (opts : FieldOptions)
    (hnm : pyStrip nm ≠ "") (hopts : selectOptsOk opts = true) :
    ((addField repo tid nm "select" req (some opts) now).1.fields =
        repo.fields ++
          [⟨repo.fieldSeq + 1, tid, pyStrip nm, "select", if req then 1 else 0, 1,
            some (nextFieldPosition repo tid), opts, now, now⟩]) ∧
      ((addField repo tid nm "select" req (some opts) now).2 =
        .ok (repo.fieldSeq + 1)) ∧
      (getDataSelectOptions raw).Nodup ∧
      (getDataSelectOptions raw).Sublist (parseSelectParts raw) ∧
      (∀ a, a ∈ getDataSelectOptions raw ↔ a ∈ parseSelectParts raw) := by
  have hunfold : addField repo tid nm "select" req (some opts) now =
      provisionColumn
        { repo with
          fields := repo.fields ++
            [⟨repo.fieldSeq + 1, tid, pyStrip nm, "select", if req then 1 else 0, 1,
              some (nextFieldPosition repo tid), opts, now, now⟩],
          fieldSeq := repo.fieldSeq + 1 } tid (repo.fieldSeq + 1) "select" := by
    simp only [addField]
    rw [if_neg hnm, if_neg (by decide),
      if_neg (by rintro ⟨-, h⟩; exact h hopts),
      if_neg (by rintro ⟨h, -⟩; exact absurd h (by decide)),
      if_neg (by rintro ⟨h, -⟩; exact absurd h (by decide))]
    rfl
  refine ⟨?_, ?_, ?_, ?_, ?_⟩
  · rw [hunfold, provisionColumn_fields]
  · rw [hunfold]
    exact provisionColumn_ok _ _ _ "select" (.jStr "") rfl
  · unfold getDataSelectOptions
    rw [dedupKeepFirst_eq]; exact dedupRec_nodup _ []
  · unfold getDataSelectOptions
    rw [dedupKeepFirst_eq]; exact dedupRec_sublist _ []
  · intro a
    unfold getDataSelectOptions
    rw [dedupKeepFirst_eq]
    simpa using dedupRec_mem (parseSelectParts raw) [] a

/-- Witness for C3: the dialog input text `"Open, Done, Open"` leads to
the stored option list `["Open", "Done"]` - duplicate removed, order
preserved. -/
theorem select_options_stored_witness :
    ((addField repoC2 1 "Status" "select" false
          (some [("options",
            .list ((getDataSelectOptions "Open, Done, Open").map JVal.jStr))])
          "t1").1.fields.map (fun f => dictGet f.options "options")) =
      [some (.list [.jStr "Open", .jStr "Done"])] := by
  rw [(select_options_stored_spec repoC2 1 "Status" false "t1" "Open, Done, Open"
      [("options", .list ((getDataSelectOptions "Open, Done, Open").map JVal.jStr))]
      (by decide) (by decide)).1]
  decide

/-! ## Structured filters (claim C6) -/

/-- Specification-side reading of one structured filter entry: entries
whose key does not parse as an int, names no live field, or is not a
dict impose no condition; a live entry imposes exactly its own per-type
clauses. -/
def entryPasses (fbid : List (Nat × FieldRow)) (e : JVal × FilterVal)
    (r : DataRow) : Bool :=
  match pyToInt e.1 with
  | .error _ => true
  | .ok fid =>
      match findFieldByIntId fbid fid with
      | none => true
      | some f =>
          match e.2 with
          | .scalar _ => true
          | .dict d =>
              match filterClauseForEntry f d with
              | .error _ => true
              | .ok cs => cs.all (evalClause r)

theorem filterClauses_all (fbid : List (Nat × FieldRow)) :
    ∀ (fs : Filters) (cs : List Clause), filterClauses fbid fs = .ok cs →
      ∀ r : DataRow, cs.all (evalClause r) = fs.all (fun e => entryPasses fbid e r) := by
  intro fs
  induction fs with
  | nil =>
      intro cs hcs r
      obtain rfl : cs = [] := by
        simpa [filterClauses] using hcs
      rfl
  | cons e rest ih =>
      intro cs hcs r
      obtain ⟨k, fv⟩ := e
      rw [List.all_cons]
      simp only [filterClauses] at hcs
      cases hk : pyToInt k with
      | error err =>
          rw [hk] at hcs
          dsimp only at hcs
          rw [ih cs hcs r]
          simp [entryPasses, hk]
      | ok fid =>
          rw [hk] at hcs
          dsimp only at hcs
          cases hf : findFieldByIntId fbid fid with
          | none =>
              rw [hf] at hcs
              dsimp only at hcs
              rw [ih cs hcs r]
              simp [entryPasses, hk, hf]
          | some f =>
              rw [hf] at hcs
              dsimp only at hcs
              cases fv with
              | scalar v =>
                  rw [ih cs hcs r]
                  simp [entryPasses, hk, hf]
              | dict d =>
                  dsimp only at hcs
                  cases hE : filterClauseForEntry f d with
                  | error err => rw [hE] at hcs; exact Except.noConfusion hcs
                  | ok cse =>
                      rw [hE] at hcs
                      cases hR : filterClauses fbid rest with
                      | error err => rw [hR] at hcs; exact Except.noConfusion hcs
                      | ok csR =>
                          rw [hR] at hcs
                          obtain rfl : cse ++ csR = cs := Except.ok.inj hcs
                          rw [List.all_append, ih csR hR r]
                          simp [entryPasses, hk, hf, hE]

theorem filterClauses_skip (fbid : List (Nat × FieldRow)) (k : JVal)
    (fv : FilterVal)
    (hk : ∀ n, pyToInt k = .ok n → findFieldByIntId fbid n = none) :
    ∀ (l₁ l₂ : Filters),
      filterClauses fbid (l₁ ++ (k, fv) :: l₂) = filterClauses fbid (l₁ ++ l₂) := by
  intro l₁
  induction l₁ with
  | nil =>
      intro l₂
      rw [List.nil_append, List.nil_append]
      simp only [filterClauses]
      cases hkk : pyToInt k with
      | error err => rfl
      | ok n =>
          dsimp only
          rw [hk n hkk]
  | cons e rest ih =>
      intro l₂
      obtain ⟨k₀, fv₀⟩ := e
      rw [List.cons_append, List.cons_append]
      simp only [filterClauses]
      cases hk0 : pyToInt k₀ with
      | error err => dsimp only; exact ih l₂
      | ok n₀ =>
          dsimp only
          cases hf0 : findFieldByIntId fbid n₀ with
          | none => dsimp only; exact ih l₂
          | some f₀ =>
              dsimp only
              cases fv₀ with
              | scalar v => dsimp only; exact ih l₂
              | dict d => dsimp only; rw [ih l₂]

theorem findFieldByIntId_listFields_none (repo : Repo) (tid : Nat) (n : Int)
    (h : ∀ f ∈ repo.fields, ¬ (f.table_id = tid ∧ f.active = 1 ∧ (f.id : Int) = n)) :
    findFieldByIntId ((listFields repo tid true).map (fun f => (f.id, f))) n = none := by
  unfold findFieldByIntId
  rw [List.find?_eq_none.mpr]
  · rfl
  · intro kv hkv
    obtain ⟨f, hf, rfl⟩ := List.mem_map.mp hkv
    have hmem : f ∈ repo.fields.filter
        (fun f => decide (f.table_id = tid ∧ (true = true → f.active = 1))) := by
      unfold listFields at hf
      exact (List.perm_insertionSort fieldRowLe _).mem_iff.mp hf
    have := List.mem_filter.mp hmem
    have hcond : f.table_id = tid ∧ f.active = 1 := by
      have h2 := this.2
      simp at h2
      exact h2
    simp only [decide_eq_true_eq]
    intro hid
    exact h f this.1 ⟨hcond.1, hcond.2, hid⟩

/-- Claim C6 - structured filters are conjoined (AND) across fields,
and a filter entry whose field id is unknown (stale id, id of another
table, or a deactivated field - that is, no live field of the queried
table carries it) is silently ignored: the whole request evaluates
exactly as if the entry were absent, in particular it never raises. -/
theorem list_records_filters_spec (repo : Repo) (tid : Nat) (q : String)
    (lim : Nat) (sf : Option Int) (sd : Option String) (k : JVal)
    (fv : FilterVal) (l₁ l₂ : Filters) (fs : Filters) (cs : List Clause)
    (hunk : ∀ n, pyToInt k = .ok n →
      ∀ f ∈ repo.fields, ¬ (f.table_id = tid ∧ f.active = 1 ∧ (f.id : Int) = n))
    (hcs : filterClauses
      ((listFields repo tid true).map (fun f => (f.id, f))) fs = .ok cs) :
    listRecords repo tid q lim (l₁ ++ (k, fv) :: l₂) sf sd =
        listRecords repo tid q lim (l₁ ++ l₂) sf sd ∧
      ∀ r : DataRow, cs.all (evalClause r) =
        fs.all (fun e =>
          entryPasses ((listFields repo tid true).map (fun f => (f.id, f))) e r) := by
  constructor
  · have hfields : (repo.ensureDataTable tid).fields = repo.fields := by
      unfold Repo.ensureDataTable
      cases repo.dataTable tid <;> rfl
    have hskip := filterClauses_skip
      ((listFields (repo.ensureDataTable tid) tid true).map (fun f => (f.id, f))) k fv
      (fun n hn => by
        apply findFieldByIntId_listFields_none
        rw [hfields]
        exact hunk n hn) l₁ l₂
    simp only [listRecords]
    rw [hskip]
  · exact filterClauses_all _ fs cs hcs

/-- Table with one live text field (id 1) and one row, used as the query
scenario. -/
def repoC6 : Repo :=
  { projects := [], tables := [⟨1, "T", none, "t0", "t0"⟩],
    fields := [⟨1, 1, "Status", "text", 0, 1, some 1, [], "t0", "t0"⟩],
    dataTables := [(1, ⟨[(1, .jStr "")], [⟨1, "t0", "t0", [(1, .jStr "Open")]⟩], 1⟩)],
    fieldSeq := 1 }

/-- Witness for C6: a filter entry with stale field id 99 leaves the
request identical to the one without it, and the conjunction
characterization instantiated on a concrete filter list. -/
theorem list_records_filters_witness :
    listRecords repoC6 1 "" 500
        ([] ++ (JVal.jInt 99, FilterVal.dict [("equals", .jStr "x")]) ::
          [(JVal.jInt 1, FilterVal.dict [("equals", .jStr "Open")])]) none none =
      listRecords repoC6 1 "" 500
        ([] ++ [(JVal.jInt 1, FilterVal.dict [("equals", .jStr "Open")])]) none none :=
  (list_records_filters_spec repoC6 1 "" 500 none none (JVal.jInt 99)
    (FilterVal.dict [("equals", .jStr "x")]) []
    [(JVal.jInt 1, FilterVal.dict [("equals", .jStr "Open")])]
    [(JVal.jInt 1, FilterVal.dict [("equals", .jStr "Open")])]
    [Clause.colEq 1 (.jStr "Open")]
    (by intro n hn
        have h99 : (99 : Int) = n := by simpa [pyToInt] using hn
        subst h99; decide)
    (by decide)).1

/-! ## Result ordering (claim C7) -/

theorem keyLt_trans {a b c : SortKey} (hab : keyLt a b) (hbc : keyLt b c) :
    keyLt a c := by
  obtain ⟨ra, na, sa⟩ := a
  obtain ⟨rb, nb, sb⟩ := b
  obtain ⟨rc, nc, sc⟩ := c
  simp only [keyLt] at *
  rcases hab with h1 | ⟨h1, h2 | ⟨h2, h3⟩⟩ <;>
    rcases hbc with g1 | ⟨g1, g2 | ⟨g2, g3⟩⟩
  all_goals
    first
      | (left; omega)
      | (right; refine ⟨by omega, ?_⟩; left; omega)
      | (right; refine ⟨by omega, ?_⟩; right;
         refine ⟨by omega, ?_⟩; subst_vars;
         first | assumption | exact lt_trans h3 g3)

theorem keyLt_asymm {a b : SortKey} (hab : keyLt a b) : ¬ keyLt b a := by
  obtain ⟨ra, na, sa⟩ := a
  obtain ⟨rb, nb, sb⟩ := b
  simp only [keyLt] at *
  rcases hab with h1 | ⟨h1, h2 | ⟨h2, h3⟩⟩ <;>
    rintro (g1 | ⟨g1, g2 | ⟨g2, g3⟩⟩) <;>
    first
      | omega
      | (subst_vars; exact absurd g3 (lt_asymm h3))

theorem keyLt_total_of_ne {a b : SortKey} (h : a ≠ b) :
    keyLt a b ∨ keyLt b a := by
  obtain ⟨ra, na, sa⟩ := a
  obtain ⟨rb, nb, sb⟩ := b
  simp only [keyLt]
  rcases Nat.lt_trichotomy ra rb with h1 | h1 | h1
  · exact Or.inl (Or.inl h1)
  · rcases Int.lt_trichotomy na nb with h2 | h2 | h2
    · exact Or.inl (Or.inr ⟨h1, Or.inl h2⟩)
    · rcases lt_trichotomy sa sb with h3 | h3 | h3
      · exact Or.inl (Or.inr ⟨h1, Or.inr ⟨h2, h3⟩⟩)
      · exact absurd (by rw [h1, h2, h3]) h
      · exact Or.inr (Or.inr ⟨h1.symm, Or.inr ⟨h2.symm, h3⟩⟩)
    · exact Or.inr (Or.inr ⟨h1.symm, Or.inl h2⟩)
  · exact Or.inr (Or.inl h1)

instance rowOrder_trans (col : OrderCol) (asc : Bool) :
    IsTrans DataRow (rowOrder col asc) := by
  constructor
  intro a b c hab hbc
  unfold rowOrder at *
  by_cases h1 : rowSortVal col a = rowSortVal col b <;>
    by_cases h2 : rowSortVal col b = rowSortVal col c
  · rw [if_pos h1] at hab
    rw [if_pos h2] at hbc
    rw [if_pos (h1.trans h2)]
    omega
  · rw [if_pos h1] at hab
    rw [if_neg h2] at hbc
    rw [if_neg (fun hc => h2 (h1.symm.trans hc)), h1]
    exact hbc
  · rw [if_neg h1] at hab
    rw [if_pos h2] at hbc
    rw [if_neg (fun hc => h1 (hc.trans h2.symm)), ← h2]
    exact hab
  · rw [if_neg h1] at hab
    rw [if_neg h2] at hbc
    cases asc with
    | true =>
        rw [if_pos rfl] at hab hbc
        have hac := keyLt_trans hab hbc
        have hne : ¬ (rowSortVal col a = rowSortVal col c) :=
          fun hc => keyLt_asymm (hc ▸ hac) (hc ▸ hac)
        rw [if_neg hne, if_pos rfl]
        exact hac
    | false =>
        rw [if_neg (show ¬ (false = true) by simp)] at hab hbc
        have hca := keyLt_trans hbc hab
        have hne : ¬ (rowSortVal col a = rowSortVal col c) :=
          fun hc => keyLt_asymm (hc ▸ hca) (hc ▸ hca)
        rw [if_neg hne, if_neg (show ¬ (false = true) by simp)]
        exact hca

instance rowOrder_total (col : OrderCol) (asc : Bool) :
    IsTotal DataRow (rowOrder col asc) := by
  constructor
  intro a b
  unfold rowOrder
  by_cases h : rowSortVal col a = rowSortVal col b
  · rw [if_pos h, if_pos h.symm]
    omega
  · rw [if_neg h,
      if_neg (fun hc : rowSortVal col b = rowSortVal col a => h hc.symm)]
    cases asc
    · rw [if_neg (show ¬ (false = true) by simp),
        if_neg (show ¬ (false = true) by simp)]
      rcases keyLt_total_of_ne h with hlt | hlt
      · exact Or.inr hlt
      · exact Or.inl hlt
    · rw [if_pos rfl, if_pos rfl]
      rcases keyLt_total_of_ne h with hlt | hlt
      · exact Or.inl hlt
      · exact Or.inr hlt

/-- Order column in the specification's vocabulary: the named field's
physical column when `sortFieldId` names a live (active) field of the
table, the id column otherwise. -/
def claimOrderCol (repo : Repo) (tid : Nat) (sortFieldId : Option Int) :
    OrderCol :=
  match sortFieldId with
  | none => .recId
  | some sfid =>
      if repo.fields.any
          (fun f => f.table_id = tid ∧ f.active = 1 ∧ (f.id : Int) = sfid) then
        .fieldCol sfid.toNat
      else .recId

/-- Result ordering in the specification's vocabulary: primary order by
the claim-side column in the normalized direction, with the `id DESC`
tiebreak when the primary keys agree. -/
def specRowLe (repo : Repo) (tid : Nat) (sf : Option Int) (sd : Option String)
    (r₁ r₂ : DataRow) : Prop :=
  if rowSortVal (claimOrderCol repo tid sf) r₁ =
      rowSortVal (claimOrderCol repo tid sf) r₂ then r₂.id ≤ r₁.id
  else if normSortDir sd = "ASC" then
    keyLt (rowSortVal (claimOrderCol repo tid sf) r₁)
      (rowSortVal (claimOrderCol repo tid sf) r₂)
  else
    keyLt (rowSortVal (claimOrderCol repo tid sf) r₂)
      (rowSortVal (claimOrderCol repo tid sf) r₁)

theorem specRowLe_eq_rowOrder (repo : Repo) (tid : Nat) (sf : Option Int)
    (sd : Option String) :
    specRowLe repo tid sf sd =
      rowOrder (claimOrderCol repo tid sf) (normSortDir sd = "ASC") := by
  funext r₁ r₂
  unfold specRowLe rowOrder
  by_cases h : rowSortVal (claimOrderCol repo tid sf) r₁ =
      rowSortVal (claimOrderCol repo tid sf) r₂
  · rw [if_pos h, if_pos h]
  · rw [if_neg h, if_neg h]
    by_cases hd : normSortDir sd = "ASC"
    · simp [hd]
    · simp [hd]

theorem orderColFor_eq_claim (repo : Repo) (tid : Nat) (sf : Option Int) :
    orderColFor ((listFields repo tid true).map (fun f => (f.id, f))) sf =
      claimOrderCol repo tid sf := by
  cases sf with
  | none => rfl
  | some sfid =>
      unfold orderColFor claimOrderCol
      dsimp only
      have hiff :
          ((((listFields repo tid true).map (fun f => (f.id, f))) :
              List (Nat × FieldRow)).any
              (fun kv => ((kv.1 : Nat) : Int) = sfid) = true) ↔
          (repo.fields.any
              (fun f => f.table_id = tid ∧ f.active = 1 ∧ (f.id : Int) = sfid) = true) := by
        rw [List.any_eq_true, List.any_eq_true]
        constructor
        · rintro ⟨kv, hkv, hp⟩
          obtain ⟨f, hf, rfl⟩ := List.mem_map.mp hkv
          have hmem : f ∈ repo.fields.filter
              (fun f => decide (f.table_id = tid ∧ (true = true → f.active = 1))) := by
            unfold listFields at hf
            exact (List.perm_insertionSort fieldRowLe _).mem_iff.mp hf
          have hfil := List.mem_filter.mp hmem
          refine ⟨f, hfil.1, ?_⟩
          have h2 := hfil.2
          simp only [decide_eq_true_eq] at h2 hp ⊢
          exact ⟨h2.1, h2.2 trivial, hp⟩
        · rintro ⟨f, hf, hp⟩
          simp only [decide_eq_true_eq] at hp
          refine ⟨(f.id, f), ?_, by simpa using hp.2.2⟩
          apply List.mem_map_of_mem
          unfold listFields
          refine (List.perm_insertionSort fieldRowLe _).mem_iff.mpr ?_
          exact List.mem_filter.mpr ⟨hf, by simp [hp.1, hp.2.1]⟩
      exact if_congr hiff rfl rfl

/-- Claim C7 - for every successful query: the direction string always
normalizes to `ASC` or `DESC`, anything whose upper-casing is neither
(including the absent default path) normalizes to `DESC`; and the result
list is ordered by the named field's physical column when `sortFieldId`
names a live field of the table and by `id` otherwise, in the normalized
direction, with the `id DESC` tiebreak - concretely, the result is the
`limit`-prefix of a sorted permutation of the matching rows. -/
theorem list_records_sort_spec (repo : Repo) (tid : Nat) (q : String)
    (lim : Nat) (fs : Filters) (sf : Option Int) (sd : Option String)
    (out : List DataRow)
    (hout : (listRecords repo tid q lim fs sf sd).2 = .ok out) :
    (∀ s : Option String, normSortDir s = "ASC" ∨ normSortDir s = "DESC") ∧
      (∀ s : String, pyUpper s ≠ "ASC" → pyUpper s ≠ "DESC" →
        normSortDir (some s) = "DESC") ∧
      normSortDir none = "DESC" ∧
      out.Sorted (specRowLe (repo.ensureDataTable tid) tid sf sd) ∧
      (∃ (dt : DataTable) (cs : List Clause) (l : List DataRow),
        (repo.ensureDataTable tid).dataTable tid = some dt ∧
        filterClauses
          ((listFields (repo.ensureDataTable tid) tid true).map (fun f => (f.id, f)))
          fs = .ok cs ∧
        l.Perm (dt.rows.filter
          (rowMatches (freeTextClauses (listFields (repo.ensureDataTable tid) tid true) q) cs)) ∧
        l.Sorted (specRowLe (repo.ensureDataTable tid) tid sf sd) ∧
        out = l.take lim) := by
  have hnorm : ∀ s : Option String, normSortDir s = "ASC" ∨ normSortDir s = "DESC" := by
    intro s
    simp only [normSortDir]
    split
    · next h => exact h
    · right; rfl
  have hinv : ∀ s : String, pyUpper s ≠ "ASC" → pyUpper s ≠ "DESC" →
      normSortDir (some s) = "DESC" := by
    intro s h1 h2
    by_cases hs : s = ""
    · subst hs; decide
    · simp only [normSortDir]
      rw [if_neg hs, if_neg (by rintro (h | h) <;> [exact h1 h; exact h2 h])]
  refine ⟨hnorm, hinv, rfl, ?_, ?_⟩ <;>
  · obtain ⟨dt, hdt⟩ := ensureDataTable_dataTable repo tid
    simp only [listRecords] at hout
    rw [hdt] at hout
    dsimp only at hout
    cases hcs : filterClauses
        ((listFields (repo.ensureDataTable tid) tid true).map (fun f => (f.id, f)))
        fs with
    | error e =>
        rw [hcs] at hout
        exact Except.noConfusion hout
    | ok cs =>
        rw [hcs] at hout
        dsimp only at hout
        obtain rfl : (List.insertionSort
            (rowOrder (orderColFor
              ((listFields (repo.ensureDataTable tid) tid true).map (fun f => (f.id, f))) sf)
              (normSortDir sd = "ASC"))
            (dt.rows.filter
              (rowMatches (freeTextClauses (listFields (repo.ensureDataTable tid) tid true) q)
                cs))).take lim = out := Except.ok.inj hout

        first
        | · apply List.Pairwise.sublist (List.take_sublist _ _)
            rw [specRowLe_eq_rowOrder, ← orderColFor_eq_claim (repo.ensureDataTable tid) tid sf]
            exact List.sorted_insertionSort _ _
        | · refine ⟨dt, cs,
              List.insertionSort
                (rowOrder (orderColFor
                  ((listFields (repo.ensureDataTable tid) tid true).map (fun f => (f.id, f))) sf)
                  (normSortDir sd = "ASC"))
                (dt.rows.filter
                  (rowMatches (freeTextClauses (listFields (repo.ensureDataTable tid) tid true) q)
                    cs)),
              hdt, rfl, List.perm_insertionSort _ _, ?_, rfl⟩
            rw [specRowLe_eq_rowOrder, ← orderColFor_eq_claim (repo.ensureDataTable tid) tid sf]
            exact List.sorted_insertionSort _ _

/-- Witness for C7: an unknown direction string normalizes to `DESC`,
and a concrete query result is sorted under the claim-side ordering. -/
theorem list_records_sort_witness :
    normSortDir (some "bogus") = "DESC" ∧
      List.Sorted (specRowLe (repoC6.ensureDataTable 1) 1 (some 1) (some "asc"))
        [⟨1, "t0", "t0", [(1, JVal.jStr "Open")]⟩] :=
  ⟨(list_records_sort_spec repoC6 1 "" 500 [] (some 1) (some "asc")
      [⟨1, "t0", "t0", [(1, JVal.jStr "Open")]⟩] (by decide)).2.1 "bogus"
      (by decide) (by decide),
   (list_records_sort_spec repoC6 1 "" 500 [] (some 1) (some "asc")
      [⟨1, "t0", "t0", [(1, JVal.jStr "Open")]⟩] (by decide)).2.2.2.1⟩

/-! ## Undo/redo round trip for record mutations (claim C1) -/

theorem addRecord_eq (t : DataTable) (vals : List (Nat × JVal)) (now : String)
    (hsub : valsSubsetCols t.cols vals = true) :
    addRecord t vals now =
      .ok ({ t with
             rows := t.rows ++ [⟨t.seq + 1, now, now, buildCells t.cols vals⟩],
             seq := t.seq + 1 }, t.seq + 1) := by
  unfold addRecord
  rw [if_pos hsub]

theorem addRecordWithId_eq (t : DataTable) (rid : Nat) (vals : List (Nat × JVal))
    (c u : Option String) (now : String)
    (hsub : valsSubsetCols t.cols vals = true) :
    addRecordWithId t rid vals c u now =
      .ok { t with
            rows := t.rows.filter (fun r => r.id ≠ rid) ++
              [⟨rid, c.getD now, u.getD now, buildCells t.cols vals⟩],
            seq := max t.seq rid } := by
  unfold addRecordWithId
  rw [if_pos hsub]

theorem dictGet_map_keys (g : Nat → JVal) :
    ∀ (ids : List Nat) (k : Nat),
      dictGet (ids.map (fun fid => (fid, g fid))) k =
        if k ∈ ids then some (g k) else none := by
  intro ids
  induction ids with
  | nil => intro k; simp [dictGet]
  | cons i rest ih =>
      intro k
      simp only [List.map_cons, dictGet]
      by_cases hik : i = k
      · subst hik
        rw [if_pos rfl, if_pos (List.mem_cons_self i rest)]
      · rw [if_neg hik, ih k]
        by_cases hk : k ∈ rest
        · rw [if_pos hk, if_pos (List.mem_cons_of_mem i hk)]
        · rw [if_neg hk, if_neg (fun hmem => by
            rcases List.mem_cons.mp hmem with h | h
            · exact hik h.symm
            · exact hk h)]

theorem dictGet_isSome_of_mem_keys {β : Type} (cells : List (Nat × β)) (k : Nat)
    (hm : k ∈ cells.map Prod.fst) : ∃ v, dictGet cells k = some v := by
  induction cells with
  | nil => exact absurd hm (by simp)
  | cons c cs ih =>
      by_cases hc1 : c.1 = k
      · exact ⟨c.2, by simp [dictGet, hc1]⟩
      · have hm2 := hm
        rw [List.map_cons] at hm2
        rcases List.mem_cons.mp hm2 with h | h
        · exact absurd h.symm hc1
        · obtain ⟨v, hv⟩ := ih h
          exact ⟨v, by simp [dictGet, hc1, hv]⟩

theorem restore_cells :
    ∀ (cols cells : List (Nat × JVal)),
      cells.map Prod.fst = cols.map Prod.fst →
      (cells.map Prod.fst).Nodup →
      cols.map (fun cd => (cd.1, (dictGet cells cd.1).getD JVal.jNull)) = cells := by
  intro cols
  induction cols with
  | nil =>
      intro cells hk _
      simp only [List.map_nil, List.map_eq_nil_iff] at hk
      simp [hk]
  | cons cd cols ih =>
      intro cells hk hnd
      cases cells with
      | nil => exact absurd hk (by simp)
      | cons c cells =>
          simp only [List.map_cons, List.cons.injEq] at hk
          obtain ⟨hk1, hk2⟩ := hk
          simp only [List.map_cons, List.nodup_cons] at hnd
          obtain ⟨hnmem, hnd2⟩ := hnd
          simp only [List.map_cons]
          congr 1
          · simp only [dictGet]
            rw [if_pos hk1]
            show (cd.1, c.2) = c
            rw [← hk1]
          · calc cols.map (fun cd => (cd.1, (dictGet (c :: cells) cd.1).getD JVal.jNull)) =
                cols.map (fun cd => (cd.1, (dictGet cells cd.1).getD JVal.jNull)) := by
                  apply List.map_congr_left
                  intro x hx
                  have hxk : x.1 ∈ cells.map Prod.fst := by
                    rw [hk2]
                    exact List.mem_map_of_mem Prod.fst hx
                  have hxne : c.1 ≠ x.1 := fun hc => hnmem (hc ▸ hxk)
                  simp only [dictGet]
                  rw [if_neg hxne]
              _ = cells := ih cells hk2 hnd2

theorem find_append_singleton (r : DataRow) (rid : Nat) (hr : r.id = rid) :
    ∀ (l : List DataRow), (∀ x ∈ l, x.id ≠ rid) →
      (l ++ [r]).find? (fun x => x.id = rid) = some r := by
  intro l
  induction l with
  | nil =>
      intro _
      simp [List.find?, hr]
  | cons a rest ih =>
      intro hl
      rw [List.cons_append]
      rw [List.find?_cons_of_neg _ (by simpa using hl a (List.mem_cons_self a rest))]
      exact ih (fun x hx => hl x (List.mem_cons_of_mem a hx))

theorem perm_filter_append (r : DataRow) (rid : Nat) (hid : r.id = rid) :
    ∀ (rows : List DataRow), (rows.map DataRow.id).Nodup → r ∈ rows →
      (rows.filter (fun x => x.id ≠ rid) ++ [r]).Perm rows := by
  intro rows
  induction rows with
  | nil => intro _ h; exact absurd h (List.not_mem_nil r)
  | cons a rest ih =>
      intro hnd hmem
      simp only [List.map_cons, List.nodup_cons] at hnd
      obtain ⟨hna, hnd2⟩ := hnd
      rcases List.mem_cons.mp hmem with rfl | hmem2
      · rw [List.filter_cons_of_neg (by simp [hid])]
        have hrest : rest.filter (fun x => x.id ≠ rid) = rest := by
          apply List.filter_eq_self.mpr
          intro x hx
          have : x.id ≠ r.id := fun hc => hna (hc ▸ List.mem_map_of_mem DataRow.id hx)
          simpa [hid] using fun hc => this (by rw [hc, hid])
        rw [hrest]
        exact List.perm_append_singleton r rest
      · have haid : a.id ≠ rid := by
          intro hc
          apply hna
          rw [hc, ← hid]
          exact List.mem_map_of_mem DataRow.id hmem2
        rw [List.filter_cons_of_pos (by simpa using haid), List.cons_append]
        exact (ih hnd2 hmem2).cons a

/-- One-column table used for the C1 scenario. -/
def t0C1 : DataTable := ⟨[(1, .jStr "")], [], 0⟩

/-- One-column table whose only field (id 1) is deactivated: the
physical column `f_1` persists and holds the non-default value `"x"`,
so an undo of a delete - whose snapshot covers live fields only - loses
that value. -/
def tC1X : DataTable := ⟨[(1, .jStr "")], [⟨1, "t0", "t0", [(1, .jStr "x")]⟩], 1⟩

/-- Counterexample to C1 as stated, in both halves.  Add half: adding a
record at time `t1`, undoing, and redoing at time `t3` restores a row
with the same id and values but with `created_at = updated_at = "t3"` -
the redo closure of `TableView.add_record` calls `add_record_with_id`
without the original timestamps, so the redone row is not identical to
the original.  Delete half: on a table with a deactivated field whose
column holds `"x"`, the snapshot of `TableView.delete_record` iterates
the live fields only (`self.fields` is `list_fields(active_only=True)`),
so it is empty here and undo re-inserts the row with that column reset
to the DDL default `""` - the exact prior field values are not
restored. -/
theorem undo_redo_counterexample :
    addRecord t0C1 [(1, .jStr "x")] "t1" =
        .ok (⟨[(1, .jStr "")], [⟨1, "t1", "t1", [(1, .jStr "x")]⟩], 1⟩, 1) ∧
      addRecordWithId
          (deleteRecord ⟨[(1, .jStr "")], [⟨1, "t1", "t1", [(1, .jStr "x")]⟩], 1⟩ 1)
          1 [(1, .jStr "x")] none none "t3" =
        .ok ⟨[(1, .jStr "")], [⟨1, "t3", "t3", [(1, .jStr "x")]⟩], 1⟩ ∧
      (⟨1, "t3", "t3", [(1, .jStr "x")]⟩ : DataRow) ≠ ⟨1, "t1", "t1", [(1, .jStr "x")]⟩ ∧
      captureOldVals [] (⟨1, "t0", "t0", [(1, .jStr "x")]⟩ : DataRow) = [] ∧
      addRecordWithId (deleteRecord tC1X 1) 1
          (captureOldVals [] ⟨1, "t0", "t0", [(1, .jStr "x")]⟩)
          (some "t0") (some "t0") "t2" =
        .ok ⟨[(1, .jStr "")], [⟨1, "t0", "t0", [(1, .jStr "")]⟩], 1⟩ ∧
      (JVal.jStr "" ≠ JVal.jStr "x") := by
  refine ⟨by decide, by decide, by decide, by decide, by decide, by decide⟩

/-- Claim C1 (amended) - undo/redo round trip for record mutations on a
well-formed table, with `fieldIds` the ids of the live fields the
table-view snapshots (each backed by a physical column, per the schema
invariant).  Add half: undo leaves exactly the pre-add rows (so the
pre-add count and no row of that id), and redo restores a row with the
same id and the same field values whose `created_at`/`updated_at` are
the redo time, not the original times.  Delete half: undo re-inserts a
row with the original id and both original timestamps whose captured
(live-field) columns carry the exact prior values, while the column of
any deactivated field is reset to its DDL default; only when every
physical column belongs to a live field is the exact prior row
restored.  Redo removes the row again. -/
theorem undo_redo_round_trip (t : DataTable) (data : List (Nat × JVal))
    (fieldIds : List Nat) (now₁ now₂ now₃ : String)
    (hwf : t.WF) (hsub : valsSubsetCols t.cols data = true)
    (hcov : ∀ fid ∈ fieldIds, fid ∈ t.cols.map Prod.fst) :
    ((deleteRecord
        { t with
          rows := t.rows ++ [⟨t.seq + 1, now₁, now₁, buildCells t.cols data⟩],
          seq := t.seq + 1 } (t.seq + 1)).rows = t.rows ∧
      addRecord t data now₁ =
        .ok ({ t with
               rows := t.rows ++ [⟨t.seq + 1, now₁, now₁, buildCells t.cols data⟩],
               seq := t.seq + 1 }, t.seq + 1) ∧
      addRecordWithId
          (deleteRecord
            { t with
              rows := t.rows ++ [⟨t.seq + 1, now₁, now₁, buildCells t.cols data⟩],
              seq := t.seq + 1 } (t.seq + 1))
          (t.seq + 1) data none none now₃ =
        .ok { t with
              rows := t.rows ++ [⟨t.seq + 1, now₃, now₃, buildCells t.cols data⟩],
              seq := t.seq + 1 }) ∧
    (∀ (rid : Nat) (r : DataRow), getRecordById t rid = some r →
      ∃ t₂,
        addRecordWithId (deleteRecord t rid) rid (captureOldVals fieldIds r)
            (some r.created_at) (some r.updated_at) now₂ = .ok t₂ ∧
        getRecordById t₂ rid =
          some ⟨rid, r.created_at, r.updated_at,
            t.cols.map (fun cd =>
              (cd.1,
               if cd.1 ∈ fieldIds then (dictGet r.cells cd.1).getD .jNull
               else cd.2))⟩ ∧
        (t.cols.map Prod.fst = fieldIds → getRecordById t₂ rid = some r) ∧
        (t.cols.map Prod.fst = fieldIds → t₂.rows.Perm t.rows) ∧
        (deleteRecord t₂ rid).rows = t.rows.filter (fun x => x.id ≠ rid)) := by
  obtain ⟨hle, hndrows, hndcols, halign⟩ := hwf
  have hfil : t.rows.filter (fun r => r.id ≠ t.seq + 1) = t.rows := by
    apply List.filter_eq_self.mpr
    intro r hr
    have := hle r hr
    simp only [decide_eq_true_eq]
    omega
  have hx : (t.rows ++
        [(⟨t.seq + 1, now₁, now₁, buildCells t.cols data⟩ : DataRow)]).filter
      (fun r => r.id ≠ t.seq + 1) = t.rows := by
    rw [List.filter_append, hfil]
    simp
  have hdel : deleteRecord
      { t with
        rows := t.rows ++ [⟨t.seq + 1, now₁, now₁, buildCells t.cols data⟩],
        seq := t.seq + 1 } (t.seq + 1) =
      (⟨t.cols, t.rows, t.seq + 1⟩ : DataTable) := by
    unfold deleteRecord
    exact congrArg (fun rs => DataTable.mk t.cols rs (t.seq + 1)) hx
  constructor
  · refine ⟨?_, addRecord_eq t data now₁ hsub, ?_⟩
    · rw [hdel]
    · rw [hdel,
        addRecordWithId_eq ⟨t.cols, t.rows, t.seq + 1⟩ (t.seq + 1) data none none now₃ hsub]
      show Except.ok _ = Except.ok _
      congr 1
      show (⟨t.cols, _, _⟩ : DataTable) = _
      rw [hfil]
      congr 1
      show max (t.seq + 1) (t.seq + 1) = t.seq + 1
      omega
  · intro rid r hget
    unfold getRecordById at hget
    have hrid : r.id = rid := by
      have := List.find?_some hget
      simpa using this
    have hmem : r ∈ t.rows := List.mem_of_find?_eq_some hget
    have hcells : r.cells.map Prod.fst = t.cols.map Prod.fst := halign r hmem
    have hbc : buildCells t.cols (captureOldVals fieldIds r) =
        t.cols.map (fun cd =>
          (cd.1,
           if cd.1 ∈ fieldIds then (dictGet r.cells cd.1).getD .jNull
           else cd.2)) := by
      unfold buildCells captureOldVals
      apply List.map_congr_left
      intro cd hcd
      rw [dictGet_map_keys _ fieldIds cd.1]
      by_cases hmemf : cd.1 ∈ fieldIds
      · rw [if_pos hmemf, if_pos hmemf]
        have hcont : (r.cells.map Prod.fst).contains cd.1 = true := by
          rw [hcells]
          exact List.elem_eq_true_of_mem (List.mem_map_of_mem Prod.fst hcd)
        simp only [Option.getD_some]
        rw [if_pos hcont]
      · rw [if_neg hmemf, if_neg hmemf]
        rfl
    have hcap : valsSubsetCols t.cols (captureOldVals fieldIds r) = true := by
      unfold valsSubsetCols captureOldVals
      rw [List.all_eq_true]
      intro kv hkv
      obtain ⟨fid, hfidmem, rfl⟩ := List.mem_map.mp hkv
      exact List.elem_eq_true_of_mem (hcov fid hfidmem)
    have hdel2 : deleteRecord t rid =
        (⟨t.cols, t.rows.filter (fun x => x.id ≠ rid), t.seq⟩ : DataTable) := rfl
    have hfil2 : (t.rows.filter (fun x => x.id ≠ rid)).filter
        (fun x => x.id ≠ rid) = t.rows.filter (fun x => x.id ≠ rid) := by
      rw [List.filter_filter]
      apply List.filter_congr
      intro x hx
      simp [Bool.and_self]
    have hexact : t.cols.map Prod.fst = fieldIds →
        (⟨rid, r.created_at, r.updated_at,
          t.cols.map (fun cd =>
            (cd.1,
             if cd.1 ∈ fieldIds then (dictGet r.cells cd.1).getD .jNull
             else cd.2))⟩ : DataRow) = r := by
      intro hfld
      have hres : t.cols.map (fun cd =>
          (cd.1,
           if cd.1 ∈ fieldIds then (dictGet r.cells cd.1).getD .jNull
           else cd.2)) = r.cells := by
        calc t.cols.map (fun cd =>
              (cd.1,
               if cd.1 ∈ fieldIds then (dictGet r.cells cd.1).getD .jNull
               else cd.2)) =
            t.cols.map (fun cd => (cd.1, (dictGet r.cells cd.1).getD JVal.jNull)) := by
              apply List.map_congr_left
              intro cd hcd
              rw [if_pos (by
                rw [← hfld]
                exact List.mem_map_of_mem Prod.fst hcd)]
          _ = r.cells := restore_cells t.cols r.cells hcells (hcells ▸ hndcols)
      rw [hres]
      obtain ⟨ri, rc, ru, rcl⟩ := r
      dsimp only at hrid ⊢
      simp [hrid]
    refine ⟨⟨t.cols,
        t.rows.filter (fun x => x.id ≠ rid) ++
          [⟨rid, r.created_at, r.updated_at,
            t.cols.map (fun cd =>
              (cd.1,
               if cd.1 ∈ fieldIds then (dictGet r.cells cd.1).getD .jNull
               else cd.2))⟩],
        max t.seq rid⟩,
      ?_, ?_, ?_, ?_, ?_⟩
    · rw [hdel2,
        addRecordWithId_eq ⟨t.cols, t.rows.filter (fun x => x.id ≠ rid), t.seq⟩
          rid (captureOldVals fieldIds r) (some r.created_at) (some r.updated_at)
          now₂ hcap]
      show Except.ok _ = Except.ok _
      congr 1
      show (⟨t.cols, _, _⟩ : DataTable) = _
      rw [hfil2]
      have hrow : (⟨rid, (some r.created_at).getD now₂, (some r.updated_at).getD now₂,
          buildCells t.cols (captureOldVals fieldIds r)⟩ : DataRow) =
          ⟨rid, r.created_at, r.updated_at,
            t.cols.map (fun cd =>
              (cd.1,
               if cd.1 ∈ fieldIds then (dictGet r.cells cd.1).getD .jNull
               else cd.2))⟩ := by
        simp only [Option.getD_some]
        rw [hbc]
      rw [hrow]
    · show (_ : List DataRow).find? _ = some _
      apply find_append_singleton _ rid rfl
      intro x hxmem
      have := List.of_mem_filter hxmem
      simpa using this
    · intro hfld
      show (_ : List DataRow).find? _ = some r
      rw [hexact hfld]
      apply find_append_singleton r rid hrid
      intro x hxmem
      have := List.of_mem_filter hxmem
      simpa using this
    · intro hfld
      show (_ ++ _ : List DataRow).Perm t.rows
      rw [hexact hfld]
      exact perm_filter_append r rid hrid t.rows hndrows hmem
    · show (_ : List DataRow).filter _ = _
      rw [List.filter_append, hfil2]
      have h2 : ([(⟨rid, r.created_at, r.updated_at,
          t.cols.map (fun cd =>
            (cd.1,
             if cd.1 ∈ fieldIds then (dictGet r.cells cd.1).getD .jNull
             else cd.2))⟩ : DataRow)]).filter (fun x => decide (x.id ≠ rid)) = [] := by
        simp
      rw [h2, List.append_nil]

/-- One-column table with one row, for the C1 witness. -/
def tC1W : DataTable :=
  ⟨[(1, .jStr "")], [⟨1, "t0", "t0", [(1, .jStr "Open")]⟩], 1⟩

/-- Witness for C1: on a concrete table whose single column belongs to
the live field that is snapshotted, the delete command's undo restores
the exact original row, timestamps included. -/
theorem undo_redo_round_trip_witness :
    addRecordWithId (deleteRecord tC1W 1) 1
        (captureOldVals [1] ⟨1, "t0", "t0", [(1, JVal.jStr "Open")]⟩)
        (some "t0") (some "t0") "t2" =
      .ok ⟨[(1, JVal.jStr "")], [⟨1, "t0", "t0", [(1, JVal.jStr "Open")]⟩], 1⟩ ∧
      getRecordById
          (⟨[(1, JVal.jStr "")], [⟨1, "t0", "t0", [(1, JVal.jStr "Open")]⟩], 1⟩ :
            DataTable) 1 =
        some ⟨1, "t0", "t0", [(1, JVal.jStr "Open")]⟩ := by
  obtain ⟨t₂, h1, -, h3, -, -⟩ :=
    (undo_redo_round_trip tC1W [(1, JVal.jStr "x")] [1] "ta" "t2" "t3"
      (by decide) (by decide) (by decide)).2
      1 ⟨1, "t0", "t0", [(1, JVal.jStr "Open")]⟩ (by decide)
  have hcalc : addRecordWithId (deleteRecord tC1W 1) 1
      (captureOldVals [1] ⟨1, "t0", "t0", [(1, JVal.jStr "Open")]⟩)
      (some "t0") (some "t0") "t2" =
      .ok ⟨[(1, JVal.jStr "")], [⟨1, "t0", "t0", [(1, JVal.jStr "Open")]⟩], 1⟩ := by
    decide
  have ht : t₂ = ⟨[(1, JVal.jStr "")], [⟨1, "t0", "t0", [(1, JVal.jStr "Open")]⟩], 1⟩ :=
    Except.ok.inj (h1.symm.trans hcalc)
  subst ht
  exact ⟨h1, h3 (by decide)⟩

/-! ## Relation labels (claim C4) -/

/-- Catalog with a relation target table (id 7) holding one record with
id 5 and no label field. -/
def repoC4 : Repo :=
  { projects := [], tables := [⟨7, "T", none, "t0", "t0"⟩],
    fields := [], dataTables := [(7, ⟨[], [⟨5, "t0", "t0", []⟩], 5⟩)],
    fieldSeq := 0 }

/-- Options dict of a relation field with `display_field_id = 0`
pointing at table 7 (using the `table_id` key that `_relation_label`
reads). -/
def optsD4 : FieldOptions :=
  [("table_id", .scalar (.jInt 7)), ("display_field_id", .scalar (.jInt 0))]

/-- Counterexample to C4 as stated: for a relation field pointing at
table 7 with `display_field_id = 0`, `_relation_label` on the valid id 5
returns `"5"` - the plain stringified id, not `"#5"` - while `0` does
give `""`.  The `"#<id>"` fallback claimed by the spec never occurs in
`_relation_label`. -/
theorem relation_label_counterexample :
    relationLabel repoC4 (some optsD4) (.jInt 5) = .ok "5" ∧
      "5" ≠ "#5" ∧
      relationLabel repoC4 (some optsD4) (.jInt 0) = .ok "" := by
  refine ⟨by decide, by decide, by decide⟩

/-- Claim C4 (amended) - `_relation_label` returns `""` for
`None`/`""`/`0`; the stringified raw value when it does not parse as an
int; the stringified id when the options dict carries no truthy
`table_id` (which is the case for every field dict built from the
catalog, whose options live under `options_json`); and otherwise the
first matching label from `get_relation_options` for the target table,
falling back to the plain stringified id - never `"#<id>"` - when the id
is not among the cached options.  `display_field_id` is never
consulted. -/
theorem relation_label_spec (repo : Repo) (fod : Option FieldOptions) :
    (relationLabel repo fod .jNull = .ok "" ∧
        relationLabel repo fod (.jStr "") = .ok "" ∧
        relationLabel repo fod (.jInt 0) = .ok "") ∧
      (∀ (v : JVal) (e : String),
        ¬ (v = .jNull ∨ v = .jStr "" ∨ v = .jInt 0 ∨ v = .jBool false) →
        pyToInt v = .error e →
        relationLabel repo fod v = .ok (pyStr v)) ∧
      (∀ (v : JVal) (n : Int),
        ¬ (v = .jNull ∨ v = .jStr "" ∨ v = .jInt 0 ∨ v = .jBool false) →
        pyToInt v = .ok n →
        optTruthy (dictGet (fod.getD []) "table_id") = false →
        relationLabel repo fod v = .ok (toString n)) ∧
      (∀ (v w : JVal) (n tw : Int),
        ¬ (v = .jNull ∨ v = .jStr "" ∨ v = .jInt 0 ∨ v = .jBool false) →
        pyToInt v = .ok n →
        dictGet (fod.getD []) "table_id" = some (.scalar w) →
        w.truthy = true →
        pyToInt w = .ok tw →
        relationLabel repo fod v =
          (match (getRelationOptions repo tw.toNat).find?
              (fun p => (p.1 : Int) = n) with
           | some p => .ok p.2
           | none => .ok (toString n))) ∧
      (∀ (opts₁ opts₂ : FieldOptions) (v : JVal),
        dictGet opts₁ "table_id" = dictGet opts₂ "table_id" →
        relationLabel repo (some opts₁) v = relationLabel repo (some opts₂) v) := by
  refine ⟨⟨?_, ?_, ?_⟩, ?_, ?_, ?_, ?_⟩
  · simp [relationLabel]
  · simp [relationLabel]
  · simp [relationLabel]
  · intro v e hz hE
    unfold relationLabel
    rw [if_neg hz, hE]
  · intro v n hz hok htr
    unfold relationLabel
    rw [if_neg hz, hok]
    dsimp only
    rw [if_pos (by simp [htr])]
  · intro v w n tw hz hok hTid htw hptw
    unfold relationLabel
    rw [if_neg hz, hok]
    dsimp only
    rw [hTid]
    rw [if_neg (by simp [optTruthy, htw])]
    dsimp only
    rw [hptw]
    rfl
  · intro opts₁ opts₂ v hEq
    unfold relationLabel
    dsimp only [Option.getD]
    rw [hEq]

/-- Witness for C4: without a truthy `table_id` the label of id 5 is
`"5"`, and with a target table whose cached options do not contain id 6
the fallback is `"6"`, not `"#6"`. -/
theorem relation_label_spec_witness :
    relationLabel repoC4 none (.jInt 5) = .ok "5" ∧
      relationLabel repoC4 (some optsD4) (.jInt 6) = .ok "6" :=
  ⟨((relation_label_spec repoC4 none).2.2.1 (.jInt 5) 5
      (by decide) (by decide) (by decide)).trans (by decide),
   ((relation_label_spec repoC4 (some optsD4)).2.2.2.1 (.jInt 6) (.jInt 7) 6 7
      (by decide) (by decide) (by decide) (by decide) (by decide)).trans (by decide)⟩

end BaseCT
